import Mathlib

/-!
Verification of the Parqués board-rules engine and its computer-opponent layer.

The definitions below are a shallow embedding of the Python sources:
  * `src/Backend/app/core/game_constants.py`  (board geometry and constants)
  * `src/Backend/app/services/game_engine.py` (rules engine)
  * `src/Backend/app/ai/ai_bot.py`            (heuristic evaluator)
  * `src/Backend/app/ai/minimax.py`           (minimax strategy)
  * `src/Backend/app/ai/mcts.py`              (MCTS strategy)

Python's mutable `GameState` is threaded explicitly; `random` results
(dice draws, shuffles) are taken as parameters; Python `dict`s whose
insertion order matters are embedded as association lists, and the
board-occupancy dict (whose key set is always exactly the track cells
`0..67`) as a total function `Int → List String` with explicit
`0 ≤ c < 68` guards wherever the source tests `c in game.board`.
Failure returns (`return None` / raised exceptions) become `Option` /
`Except`.
-/

namespace Parques

/-- `PlayerColor` from game_constants.py. -/
inductive PlayerColor where
  | red | blue | yellow | green
  deriving DecidableEq, Repr

/-- `GameStatus` from game_constants.py. -/
inductive GameStatus where
  | waiting | active | paused | finished | cancelled
  deriving DecidableEq, Repr

/-- `PieceStatus` from game_constants.py. -/
inductive PieceStatus where
  | home | board | safe_zone | goal
  deriving DecidableEq, Repr

/-- `MoveType` from game_constants.py. -/
inductive MoveType where
  | exit_home | normal_move | capture | enter_goal | blocked
  deriving DecidableEq, Repr

/-- `BOARD_SIZE = 68`. -/
def BOARD_SIZE : Int := 68

/-- `GOAL_POSITIONS = 8`. -/
def GOAL_POSITIONS : Int := 8

/-- `MAX_TURNS_WITHOUT_PROGRESS = 50`. -/
def MAX_TURNS_WITHOUT_PROGRESS : Nat := 50

/-- `SAFE_POSITIONS = [5, 12, 17, 22, 29, 34, 39, 46, 51, 56, 63, 0]`. -/
def SAFE_POSITIONS : List Int := [5, 12, 17, 22, 29, 34, 39, 46, 51, 56, 63, 0]

/-- `BoardPositions.is_safe_position`. -/
def isSafePosition (position : Int) : Prop := position ∈ SAFE_POSITIONS

instance (position : Int) : Decidable (isSafePosition position) :=
  inferInstanceAs (Decidable (position ∈ SAFE_POSITIONS))

/-- `STARTING_POSITIONS` / `BoardPositions.get_starting_position`. -/
def startingPosition : PlayerColor → Int
  | .red => 5
  | .blue => 22
  | .yellow => 39
  | .green => 56

/-- `GOAL_ENTRY_POSITIONS` / `BoardPositions.get_goal_entry_position`. -/
def goalEntryPosition : PlayerColor → Int
  | .red => 0
  | .blue => 17
  | .yellow => 34
  | .green => 51

/-- `BoardPositions.calculate_next_position`: `(current_position + steps) % BOARD_SIZE`
(Python `%` on a positive modulus is `Int.emod`). -/
def calculateNextPosition (currentPosition steps : Int) : Int :=
  (currentPosition + steps) % BOARD_SIZE

/-- `Piece` dataclass from game_engine.py (the derived-at-construction id string,
its color, `position` and `status`). -/
structure Piece where
  id : String
  color : PlayerColor
  position : Int
  status : PieceStatus
  deriving DecidableEq, Repr

/-- `Player` dataclass from game_engine.py (fields that the rules engine and the
evaluator read; `user_id`/`name`/`is_ai`/`ai_level` are carried verbatim). -/
structure Player where
  id : String
  user_id : String
  color : PlayerColor
  name : String
  pieces : List Piece
  score : Int
  is_ai : Bool
  deriving DecidableEq, Repr

/-- `Player.__post_init__`: a fresh player gets 4 pieces `color_i`, all jailed. -/
def colorName : PlayerColor → String
  | .red => "red"
  | .blue => "blue"
  | .yellow => "yellow"
  | .green => "green"

/-- The default 4-piece allocation of `Player.__post_init__`
(`HOME_POSITIONS = 4`, each piece at position `-1` with status `HOME`). -/
def defaultPieces (color : PlayerColor) : List Piece :=
  (List.range 4).map fun i =>
    { id := colorName color ++ "_" ++ toString i
      color := color, position := -1, status := .home }

/-- `GameMove` dataclass from game_engine.py (timestamps omitted: no claim
mentions them and they are taken from the ambient clock). -/
structure GameMove where
  player_id : String
  piece_id : String
  from_position : Int
  to_position : Int
  dice_value : Int
  move_type : MoveType
  captured_piece_id : Option String
  deriving DecidableEq, Repr

/-- The dictionary returned by `GameEngine.roll_dice`. -/
structure DiceResult where
  dice1 : Int
  dice2 : Int
  total : Int
  is_pair : Bool
  can_continue : Bool
  deriving DecidableEq, Repr

/-- The move dictionaries produced by `GameEngine._get_piece_valid_moves`
(`{'piece_id', 'from_position', 'to_position', 'move_type'}`). -/
structure ValidMove where
  piece_id : String
  from_position : Int
  to_position : Int
  move_type : MoveType
  deriving DecidableEq, Repr

/-- `GameState` dataclass from game_engine.py.  `players` keeps the Python
dict's insertion order (keys are always the players' own ids); `board` is the
occupancy dict as a total function, empty away from the track. -/
structure GameState where
  id : String
  players : List Player
  current_player_id : Option String
  status : GameStatus
  board : Int → List String
  last_dice_value : Option Int
  last_dice1 : Option Int
  last_dice2 : Option Int
  is_pair : Bool
  jail_attempts : List (String × Nat)
  moves_history : List GameMove
  winner_id : Option String
  turns_without_progress : Nat

/-- `game.players[player_id]` lookup (dict key = `Player.id`). -/
def findPlayer (g : GameState) (playerId : String) : Option Player :=
  g.players.find? fun pl => pl.id = playerId

/-- All pieces of a player list, in player order (the iteration order of the
source's nested `for player ... for piece ...` loops). -/
def allPiecesOf (players : List Player) : List Piece :=
  players.flatMap Player.pieces

/-- All pieces of all players of a game. -/
def allPieces (g : GameState) : List Piece :=
  allPiecesOf g.players

/-- Association-list read of `game.jail_attempts` (`None` = key absent). -/
def jailLookup (ja : List (String × Nat)) (playerId : String) : Option Nat :=
  (ja.find? fun kv => kv.1 = playerId).map Prod.snd

/-- `game.jail_attempts[player_id] = v` (overwrite or insert). -/
def jailSet (ja : List (String × Nat)) (playerId : String) (v : Nat) : List (String × Nat) :=
  if (ja.find? fun kv => kv.1 = playerId).isSome then
    ja.map fun kv => if kv.1 = playerId then (kv.1, v) else kv
  else ja ++ [(playerId, v)]

/-- `GameEngine._can_move_to_position`: the target must be a track cell and no
piece of the moving piece's own color may already occupy it. -/
abbrev CanMoveToPosition (g : GameState) (piece : Piece) (position : Int) : Prop :=
  0 ≤ position ∧ position < BOARD_SIZE ∧
    ∀ pid ∈ g.board position, ∀ pl ∈ g.players, ∀ p ∈ pl.pieces,
      p.id = pid → p.color ≠ piece.color

/-- `GameEngine._can_move_to_goal`: the target must be a goal-lane cell
(68–75), the piece's owner must be found (first player owning a piece with the
moving piece's id), and no other piece of that owner may sit on the target. -/
abbrev CanMoveToGoal (g : GameState) (piece : Piece) (position : Int) : Prop :=
  BOARD_SIZE ≤ position ∧ position < BOARD_SIZE + GOAL_POSITIONS ∧
    ∃ owner ∈ (g.players.find? fun pl =>
        pl.pieces.any fun p => p.id = piece.id),
      ∀ p ∈ owner.pieces, p.position = position → p.id = piece.id

/-- `GameEngine._would_capture`: never on a safe cell; otherwise true iff the
destination bucket holds the id of some piece of another color. -/
abbrev WouldCapture (g : GameState) (piece : Piece) (position : Int) : Prop :=
  ¬ isSafePosition position ∧
    (0 ≤ position ∧ position < BOARD_SIZE) ∧
    ∃ pid ∈ g.board position, ∃ pl ∈ g.players, ∃ p ∈ pl.pieces,
      p.id = pid ∧ p.color ≠ piece.color

/-- `GameEngine._will_pass_goal_entry`: some intermediate cell
`(current_pos + i) % 68`, `1 ≤ i ≤ steps`, is the goal-entry cell. -/
abbrev WillPassGoalEntry (currentPos steps goalEntry : Int) : Prop :=
  ∃ j ∈ List.range steps.toNat, (currentPos + (j + 1 : Nat)) % BOARD_SIZE = goalEntry

/-- `GameEngine._calculate_steps_to_position`. -/
def calculateStepsToPosition (fromPos toPos : Int) : Int :=
  if toPos ≥ fromPos then toPos - fromPos else (BOARD_SIZE - fromPos) + toPos

/-- The lane-entry move of `_get_piece_valid_moves` shared by the `BOARD` and
on-track `SAFE_ZONE` branches: offered when the roll crosses the color's goal
entry, the overflow lands inside the 8-cell lane, and the target lane cell is
free of the player's other pieces. -/
def goalEntryMoves (g : GameState) (piece : Piece) (diceValue : Int) : List ValidMove :=
  let stepsToEntry := calculateStepsToPosition piece.position (goalEntryPosition piece.color)
  let stepsIntoGoal := diceValue - stepsToEntry
  if 0 < stepsIntoGoal ∧ stepsIntoGoal ≤ GOAL_POSITIONS then
    let goalPosition := BOARD_SIZE + stepsIntoGoal - 1
    if CanMoveToGoal g piece goalPosition then
      [{ piece_id := piece.id, from_position := piece.position
         to_position := goalPosition, move_type := .enter_goal }]
    else []
  else []

/-- The circular-track move of `_get_piece_valid_moves` shared by the `BOARD`
and on-track `SAFE_ZONE` branches. -/
def trackMoves (g : GameState) (piece : Piece) (diceValue : Int) : List ValidMove :=
  let newPosition := calculateNextPosition piece.position diceValue
  if CanMoveToPosition g piece newPosition then
    [{ piece_id := piece.id, from_position := piece.position
       to_position := newPosition
       move_type := if WouldCapture g piece newPosition then .capture else .normal_move }]
  else []

/-- `GameEngine._get_piece_valid_moves`. -/
def getPieceValidMoves (g : GameState) (piece : Piece) (diceValue : Int) : List ValidMove :=
  match piece.status with
  | .home =>
    if g.is_pair then
      let startPos := startingPosition piece.color
      if CanMoveToPosition g piece startPos then
        [{ piece_id := piece.id, from_position := -1
           to_position := startPos, move_type := .exit_home }]
      else []
    else []
  | .board =>
    if WillPassGoalEntry piece.position diceValue (goalEntryPosition piece.color) then
      goalEntryMoves g piece diceValue
    else
      trackMoves g piece diceValue
  | .safe_zone =>
    if piece.position ≥ BOARD_SIZE then
      let newPosition := piece.position + diceValue
      if newPosition ≤ BOARD_SIZE + GOAL_POSITIONS - 1 then
        if CanMoveToGoal g piece newPosition then
          [{ piece_id := piece.id, from_position := piece.position
             to_position := newPosition, move_type := .enter_goal }]
        else []
      else []
    else
      if WillPassGoalEntry piece.position diceValue (goalEntryPosition piece.color) then
        goalEntryMoves g piece diceValue
      else
        trackMoves g piece diceValue
  | .goal => []

/-- `GameEngine.get_valid_moves`. -/
def getValidMoves (g : GameState) (playerId : String) (diceValue : Int) : List ValidMove :=
  match findPlayer g playerId with
  | none => []
  | some player => player.pieces.flatMap fun piece => getPieceValidMoves g piece diceValue

/-- Inner loop of `GameEngine._capture_piece` for one bucket entry and one
player: jail (`position = -1`, status `HOME`) the first piece whose id is
`pid` and whose color differs from the capturing color; report whether one
was found (the source `break`s out of the piece loop after the first hit). -/
def jailFirstOpposing (pieces : List Piece) (pid : String) (cap : PlayerColor) :
    List Piece × Bool :=
  match pieces with
  | [] => ([], false)
  | p :: rest =>
    if p.id = pid ∧ p.color ≠ cap then
      ({ p with position := -1, status := .home } :: rest, true)
    else
      (p :: (jailFirstOpposing rest pid cap).1, (jailFirstOpposing rest pid cap).2)

/-- `GameEngine._capture_piece`, middle loop: one bucket entry scanned against
every player (the source's `break` leaves only the piece loop, so each player
is scanned); returns the updated players and how many times the entry's id
was appended to `pieces_to_remove` (once per player with a hit). -/
def captureScanPlayers (players : List Player) (pid : String) (cap : PlayerColor) :
    List Player × Nat :=
  match players with
  | [] => ([], 0)
  | pl :: rest =>
    ({ pl with pieces := (jailFirstOpposing pl.pieces pid cap).1 } ::
        (captureScanPlayers rest pid cap).1,
      (if (jailFirstOpposing pl.pieces pid cap).2 then 1 else 0) +
        (captureScanPlayers rest pid cap).2)

/-- `GameEngine._capture_piece`, outer loop over the destination bucket:
returns the updated players, the `pieces_to_remove` list (with multiplicity,
in append order) and `captured_piece_id` (the last id assigned). -/
def captureScanBucket (players : List Player) (bucket : List String) (cap : PlayerColor) :
    List Player × List String × Option String :=
  match bucket with
  | [] => (players, [], none)
  | pid :: rest =>
    let scan := captureScanPlayers players pid cap
    let deeper := captureScanBucket scan.1 rest cap
    (deeper.1, List.replicate scan.2 pid ++ deeper.2.1,
      if deeper.2.2.isSome then deeper.2.2 else if scan.2 > 0 then some pid else none)

/-- `GameEngine._capture_piece`: jail every opposing piece listed in the
destination bucket, then erase the collected ids from that bucket.  The
`position not in game.board` guard is `¬ (0 ≤ position < 68)`, since the
board dict's keys are exactly the track cells. -/
def capturePiece (g : GameState) (position : Int) (cap : PlayerColor) :
    GameState × Option String :=
  if 0 ≤ position ∧ position < BOARD_SIZE then
    let scan := captureScanBucket g.players (g.board position) cap
    let newBucket := scan.2.1.foldl List.erase (g.board position)
    ({ g with players := scan.1,
              board := fun c => if c = position then newBucket else g.board c }, scan.2.2)
  else (g, none)

/-- The derived status assignment of `GameEngine._execute_move`
(`< 0` home, `≥ 75` crowned, `≥ 68` lane, otherwise on the track). -/
def statusOfPosition (toPosition : Int) : PieceStatus :=
  if toPosition < 0 then .home
  else if toPosition ≥ BOARD_SIZE + GOAL_POSITIONS - 1 then .goal
  else if toPosition ≥ BOARD_SIZE then .safe_zone
  else .board

/-- Update (in place) the first piece with the given id, as mutating the
piece object found by `make_move` does. -/
def setPieceFirst (pieces : List Piece) (pieceId : String) (pos : Int) (st : PieceStatus) :
    List Piece :=
  match pieces with
  | [] => []
  | p :: rest =>
    if p.id = pieceId then { p with position := pos, status := st } :: rest
    else p :: setPieceFirst rest pieceId pos st

/-- Update (in place) the first player with the given id, as mutating the
player object held by the engine does. -/
def mapPlayerFirst (players : List Player) (playerId : String) (f : Player → Player) :
    List Player :=
  match players with
  | [] => []
  | pl :: rest => if pl.id = playerId then f pl :: rest else pl :: mapPlayerFirst rest playerId f

/-- The index arithmetic of `GameEngine._next_turn`: the id that follows
`cur` in the players-dict key list (junk-total where Python would raise). -/
def nextAfter (ids : List String) (cur : String) : String :=
  (ids.get? ((ids.indexOf cur + 1) % ids.length)).getD cur

/-- `GameEngine._next_turn`: step `current_player_id` to the next key of the
players dict (its insertion order), bump the stall counter, and force-finish
at the ceiling.  (`list.index` would raise when the current player is not a
key; theorems assume membership.) -/
def nextTurn (g : GameState) : GameState :=
  let newCurrent := nextAfter (g.players.map Player.id) (g.current_player_id.getD "")
  let t := g.turns_without_progress + 1
  { g with current_player_id := some newCurrent,
           turns_without_progress := t,
           status := if t ≥ MAX_TURNS_WITHOUT_PROGRESS then .finished else g.status }

/-- The head of `GameEngine._execute_move`: classify the move and resolve a
capture (which runs before the board bookkeeping in the source). -/
def resolveCapture (g : GameState) (piece : Piece) (toPosition : Int) :
    GameState × MoveType × Option String :=
  if piece.status = .home then (g, MoveType.exit_home, none)
  else if toPosition ≥ BOARD_SIZE then (g, MoveType.enter_goal, none)
  else if WouldCapture g piece toPosition then
    ((capturePiece g toPosition piece.color).1, MoveType.capture,
      (capturePiece g toPosition piece.color).2)
  else (g, MoveType.normal_move, none)

/-- `Player.score` bump. -/
def addScore (n : Int) (pl : Player) : Player := { pl with score := pl.score + n }

/-- The piece update mutating the found piece object in the mover's list. -/
def movePieceIn (pieceId : String) (toPos : Int) (pl : Player) : Player :=
  { pl with pieces := setPieceFirst pl.pieces pieceId toPos (statusOfPosition toPos) }

/-- `if from_position in game.board: ... remove(piece.id)` (keys are 0..67). -/
def removeFromOldCell (g1 : GameState) (pieceId : String) (fromPos : Int) : GameState :=
  if 0 ≤ fromPos ∧ fromPos < BOARD_SIZE then
    { g1 with board := fun c =>
        if c = fromPos then (g1.board fromPos).erase pieceId else g1.board c }
  else g1

/-- Append the moved piece to its new cell's bucket when it stays on track. -/
def placeOnBoard (g3 : GameState) (pieceId : String) (toPos : Int) : GameState :=
  if statusOfPosition toPos = .board then
    { g3 with board := fun c =>
        if c = toPos then g3.board toPos ++ [pieceId] else g3.board c }
  else g3

/-- The `_execute_move` score update (+10 capture, +50 entering the lane). -/
def scoreFor (mt : MoveType) (g5 : GameState) (pid : String) : GameState :=
  if mt = .capture then { g5 with players := mapPlayerFirst g5.players pid (addScore 10) }
  else if mt = .enter_goal then
    { g5 with players := mapPlayerFirst g5.players pid (addScore 50) }
  else g5

/-- The `_execute_move` tail: `_check_victory` on the live player object and
the conditional turn change (only on a last move without a pair). -/
def finishTurn (g6 : GameState) (pid : String) (isLastMove : Bool) : GameState :=
  let victorious : Bool := match findPlayer g6 pid with
    | some pl => pl.pieces.all fun p => decide (p.status = .goal)
    | none => false
  if victorious then
    { g6 with winner_id := some pid, status := .finished,
              players := mapPlayerFirst g6.players pid (addScore 100) }
  else if isLastMove ∧ ¬ g6.is_pair then nextTurn g6
  else g6

/-- The board/piece/history/score updates of `_execute_move`, i.e. the state
reached just before the victory check and turn change. -/
def preTurnState (g1 : GameState) (player : Player) (piece : Piece)
    (fromPosition toPosition diceValue : Int)
    (moveType : MoveType) (capturedPieceId : Option String) : GameState :=
  let g2 := removeFromOldCell g1 piece.id fromPosition
  let f := movePieceIn piece.id toPosition
  let g3 := { g2 with players := mapPlayerFirst g2.players player.id f }
  let g4 := placeOnBoard g3 piece.id toPosition
  let gameMove : GameMove :=
    ⟨player.id, piece.id, fromPosition, toPosition, diceValue, moveType, capturedPieceId⟩
  let g5 := { g4 with moves_history := g4.moves_history ++ [gameMove] }
  scoreFor moveType g5 player.id

/-- The tail of `GameEngine._execute_move` after capture resolution: board
bookkeeping, piece update, history, scoring, victory check and (conditional)
turn advance. -/
def finishMove (g1 : GameState) (player : Player) (piece : Piece)
    (fromPosition toPosition diceValue : Int) (isLastMove : Bool)
    (moveType : MoveType) (capturedPieceId : Option String) : GameState × GameMove :=
  (finishTurn
      (preTurnState g1 player piece fromPosition toPosition diceValue moveType capturedPieceId)
      player.id isLastMove,
    ⟨player.id, piece.id, fromPosition, toPosition, diceValue, moveType, capturedPieceId⟩)

/-- `GameEngine._execute_move` (timestamp bookkeeping dropped).  `player` and
`piece` are the objects `make_move` looked up; mutation goes through their
ids. -/
def executeMove (g : GameState) (player : Player) (piece : Piece)
    (toPosition diceValue : Int) (isLastMove : Bool) : GameState × GameMove :=
  let r := resolveCapture g piece toPosition
  finishMove r.1 player piece piece.position toPosition diceValue isLastMove r.2.1 r.2.2

/-- `GameEngine.make_move`: guards, piece lookup, validation against
`_get_piece_valid_moves`, then execution. -/
def makeMove (g : GameState) (playerId pieceId : String) (toPosition diceValue : Int)
    (isLastMove : Bool) : Option (GameState × GameMove) :=
  if g.status ≠ .active then none
  else if g.current_player_id ≠ some playerId then none
  else match findPlayer g playerId with
    | none => none
    | some player =>
      match player.pieces.find? (fun p => p.id = pieceId) with
      | none => none
      | some piece =>
        let validMoves := getPieceValidMoves g piece diceValue
        if validMoves.any (fun m => decide (m.piece_id = pieceId) && decide (m.to_position = toPosition)) then
          some (executeMove g player piece toPosition diceValue isLastMove)
        else none

/-- The per-piece release of `GameEngine._auto_release_all_pieces`. -/
def releasePiece (startPos : Int) (p : Piece) : Piece :=
  if p.status = .home then { p with position := startPos, status := .board } else p

/-- `GameEngine._auto_release_all_pieces`: every jailed piece of the player is
placed on the color's start cell, appended to that cell's bucket, and logged
as an `EXIT_HOME` move with dice value 0.  Returns the release count. -/
def autoReleaseAllPieces (g : GameState) (playerId : String) : GameState × Nat :=
  match findPlayer g playerId with
  | none => (g, 0)
  | some player =>
    let startPos := startingPosition player.color
    let homePieces := player.pieces.filter fun p => decide (p.status = .home)
    let players' := mapPlayerFirst g.players playerId
        (fun pl => { pl with pieces := pl.pieces.map (releasePiece startPos) })
    let newMoves : List GameMove := homePieces.map fun p =>
      { player_id := player.id, piece_id := p.id, from_position := -1,
        to_position := startPos, dice_value := 0, move_type := MoveType.exit_home,
        captured_piece_id := none }
    ({ g with players := players',
              board := fun c =>
                if c = startPos then g.board startPos ++ homePieces.map Piece.id else g.board c,
              moves_history := g.moves_history ++ newMoves }, homePieces.length)

/-- The state updates of `GameEngine.roll_dice` up to (excluding) the pair
auto-release: store the two dice, their total and pair-ness, and maintain the
jail-attempt counter (`allInJail` is whether every piece of the roller is
jailed; a key is created where Python creates one). -/
def rollStore (g : GameState) (playerId : String) (dice1 dice2 : Int) (allInJail : Bool) :
    GameState :=
  let isPair := decide (dice1 = dice2)
  { g with last_dice1 := some dice1, last_dice2 := some dice2,
           last_dice_value := some (dice1 + dice2), is_pair := isPair,
           jail_attempts :=
             if allInJail then
               jailSet g.jail_attempts playerId
                 (if isPair then 0 else (jailLookup g.jail_attempts playerId).getD 0)
             else jailSet g.jail_attempts playerId 0 }

/-- `GameEngine.roll_dice` with the two `random.randint(1, 6)` draws passed
in; stores the roll, maintains the jail-attempt counter, and on a pair
auto-releases every jailed piece of the roller. -/
def rollDice (g : GameState) (playerId : String) (dice1 dice2 : Int) :
    Option (GameState × DiceResult) :=
  if g.status ≠ .active then none
  else if g.current_player_id ≠ some playerId then none
  else match findPlayer g playerId with
    | none => none
    | some player =>
      let isPair := decide (dice1 = dice2)
      let g2 := rollStore g playerId dice1 dice2
                  (player.pieces.all fun p => decide (p.status = .home))
      let g3 := if isPair then (autoReleaseAllPieces g2 playerId).1 else g2
      some (g3, { dice1 := dice1, dice2 := dice2, total := dice1 + dice2,
                  is_pair := isPair, can_continue := isPair })

/-- `GameEngine.pass_turn`: guards, then bump-and-cycle the jail-attempt
counter when the key exists, then advance the turn. -/
def passTurn (g : GameState) (playerId : String) : Option GameState :=
  if g.status ≠ .active then none
  else if g.current_player_id ≠ some playerId then none
  else
    let newAttempts := match jailLookup g.jail_attempts playerId with
      | none => g.jail_attempts
      | some a => jailSet g.jail_attempts playerId (if a + 1 ≥ 3 then 0 else a + 1)
    some (nextTurn { g with jail_attempts := newAttempts })

/-- `GameEngine.add_player` with the generated player id passed in; the
returned state appends the new player (4 jailed default pieces). -/
def addPlayer (g : GameState) (playerId userId name : String) (color : PlayerColor)
    (isAi : Bool) : Option GameState :=
  if g.status ≠ .waiting then none
  else if g.players.length ≥ 4 then none
  else if g.players.any (fun pl => decide (pl.color = color)) then none
  else some { g with players := g.players ++
      [{ id := playerId, user_id := userId, color := color, name := name,
         pieces := defaultPieces color, score := 0, is_ai := isAi }] }

/-- `GameEngine.start_game` with the `random.shuffle` result passed in (the
source keeps only its first element as the starting player). -/
def startGame (g : GameState) (shuffledIds : List String) : Option GameState :=
  if g.status ≠ .waiting then none
  else if g.players.length < 2 then none
  else some { g with status := .active, current_player_id := shuffledIds.head? }

/-! ### The heuristic evaluator (`ai_bot.py`)

Python float arithmetic is embedded as exact rational arithmetic: the only
divisions are by the constant 67. -/

/-- The safe-cell list hardcoded (three times) inside ai_bot.py; the same set
as `SAFE_POSITIONS`, in ascending order. -/
def aiSafePositions : List Int := [0, 5, 12, 17, 22, 29, 34, 39, 46, 51, 56, 63]

/-- `AIBot._count_vulnerable_pieces`: the source's innermost `break` leaves
only the dice loop, so the counter is bumped once for every pair (own piece
on a non-safe track cell, opposing on-track piece that reaches it with some
die 1–6). -/
def countVulnerablePieces (g : GameState) (playerId : String) : Nat :=
  match findPlayer g playerId with
  | none => 0
  | some player =>
    ((player.pieces.map Piece.position).map fun pos =>
      if 0 < pos ∧ pos < BOARD_SIZE ∧ ¬ pos ∈ aiSafePositions then
        (g.players.map fun other =>
          if other.id ≠ playerId then
            ((other.pieces.map Piece.position).map fun otherPos =>
              if (0 ≤ otherPos ∧ otherPos < BOARD_SIZE) ∧
                  ∃ k ∈ List.range 6, (otherPos + (k + 1 : Nat)) % BOARD_SIZE = pos
              then 1 else 0).sum
          else 0).sum
      else 0).sum

/-- `AIBot._count_capture_opportunities`: the counting loops hold no `break`
at all, so the counter is bumped once for every triple (own on-track piece,
die value 1–6, opposing player) whose non-safe target cell holds a piece of
that opponent (the `in` test is per opposing player, not per piece). -/
def countCaptureOpportunities (g : GameState) (playerId : String) : Nat :=
  match findPlayer g playerId with
  | none => 0
  | some player =>
    ((player.pieces.map Piece.position).map fun pos =>
      if 0 ≤ pos ∧ pos < BOARD_SIZE then
        ((List.range 6).map fun k =>
          let target := (pos + (k + 1 : Nat)) % BOARD_SIZE
          if ¬ target ∈ aiSafePositions then
            (g.players.map fun other =>
              if other.id ≠ playerId ∧ target ∈ other.pieces.map Piece.position
              then 1 else 0).sum
          else 0).sum
      else 0).sum

/-- `AIBot.evaluate_position`. -/
def evaluatePosition (g : GameState) (playerId : String) : ℚ :=
  match findPlayer g playerId with
  | none => -1000
  | some player =>
    let positions := player.pieces.map Piece.position
    let piecesAtHome : Nat := positions.countP fun pos => decide (pos = -1)
    let piecesAtGoal : Nat := positions.countP fun pos => decide (pos ≥ BOARD_SIZE)
    let progressScore : ℚ :=
      (positions.map fun pos =>
        if 0 < pos ∧ pos < BOARD_SIZE then ((min pos 67 : Int) : ℚ) / 67 * 20 else 0).sum
    let safeCount : Nat := positions.countP fun pos => decide (pos ∈ aiSafePositions)
    0 - piecesAtHome * 10 + piecesAtGoal * 50 + progressScore + safeCount * 5
      - (countVulnerablePieces g playerId) * 8 + (countCaptureOpportunities g playerId) * 15

/-! ### The search strategies (`minimax.py`, `mcts.py`)

Both strategies simulate moves on a "deep copy" built by calling
`GameState()` with no arguments.  The `GameState` dataclass imported from
`app.services.game_engine` declares `id: str` with no default value, so that
call raises `TypeError` before anything else runs (the following lines would
also read `game_state.game_id`, `current_player`, `turn_order`, `dice_value`
and `consecutive_sixes`, none of which the engine `GameState` defines, and
`Player(...)` is called with an `is_winner` keyword the engine `Player` does
not accept).  Exceptions are embedded as `Except` errors; the claims under
test assume the mistake branch is not triggered, so only the mistake-free
path is modelled. -/

/-- Python exception kinds raised inside the search strategies. -/
inductive PyError where
  | typeError | attributeError
  deriving DecidableEq, Repr

/-- `BotMove` dataclass from ai_bot.py. -/
structure BotMove where
  player_id : String
  piece_id : String
  piece_index : Nat
  from_position : Int
  to_position : Int
  dice_value : Int
  captures_opponent : Bool
  deriving DecidableEq, Repr

/-- `MinimaxBot._simulate_move` (minimax.py line 110): its first statement is
`new_state = GameState()`, which raises `TypeError` (`id` has no default), so
every call fails before reaching the move application. -/
def minimaxSimulateMove (_g : GameState) (_m : BotMove) : Except PyError GameState :=
  .error .typeError

/-- `MinimaxBot.choose_move`, mistake-free path: with a non-empty move list
the evaluation loop's first statement `self._simulate_move(game_state, move)`
raises, so the `_minimax` recursion below it is never entered (its `.ok`
continuation is therefore dead code and returns an arbitrary value). -/
def minimaxChooseMove (g : GameState) (validMoves : List BotMove) (_depth : Nat) :
    Except PyError (Option BotMove) :=
  match validMoves with
  | [] => .ok none
  | m :: _ =>
    match minimaxSimulateMove g m with
    | .error e => .error e
    | .ok _ => .ok none

/-- `MCTSNode.is_terminal`: reads `player.is_winner` for each player of the
engine state; the engine `Player` has no `is_winner` attribute, so the read
raises `AttributeError` as soon as there is at least one player (with no
players the loop body never runs and the method returns `False`). -/
def mctsIsTerminal (g : GameState) : Except PyError Bool :=
  if g.players.isEmpty then .ok false else .error .attributeError

/-- `MCTSBot._copy_game_state` (mcts.py line 196): its first statement is
`new_state = GameState()`, which raises `TypeError` (`id` has no default). -/
def mctsCopyGameState (_g : GameState) : Except PyError GameState :=
  .error .typeError

/-- One `MCTSBot._mcts_iteration` on the freshly built root: selection
evaluates `root.is_terminal()`, the expansion guard evaluates it again, and
then both possible continuations — expansion (`_expand` → `_simulate_move` →
`_copy_game_state`) and simulation (`_simulate` → `_copy_game_state`) — begin
by deep-copying the state via `GameState()`. -/
def mctsIteration (g : GameState) : Except PyError Unit := do
  let _ ← mctsIsTerminal g
  let _ ← mctsIsTerminal g
  let _ ← mctsCopyGameState g
  pure ()

/-- `MCTSBot.choose_move`, mistake-free path.  With simulation budget 0 the
iteration loop never runs, the root has no children, and `valid_moves[0]` is
returned; with a positive budget the first iteration raises, so the `.ok`
continuation after it is dead code. -/
def mctsChooseMove (g : GameState) (validMoves : List BotMove) (simulations : Nat) :
    Except PyError (Option BotMove) :=
  match validMoves with
  | [] => .ok none
  | m :: _ =>
    match simulations with
    | 0 => .ok (some m)
    | _ + 1 =>
      match mctsIteration g with
      | .error e => .error e
      | .ok _ => .ok (some m)

/-! ### Concrete fixtures used by witnesses and counterexamples -/

/-- An everywhere-empty occupancy map. -/
def emptyBoard : Int → List String := fun _ => []

/-- Occupancy map described by an association list of buckets. -/
def boardOf (l : List (Int × List String)) : Int → List String :=
  fun c => ((l.find? (fun kv => kv.1 = c)).map Prod.snd).getD []

/-- Piece fixture. -/
def mkPieceT (id : String) (c : PlayerColor) (pos : Int) (st : PieceStatus) : Piece :=
  ⟨id, c, pos, st⟩

/-- Player fixture. -/
def mkPlayerT (id : String) (c : PlayerColor) (pieces : List Piece) : Player :=
  ⟨id, id ++ "u", c, id, pieces, 0, false⟩

/-- A fresh, waiting, empty game. -/
def waitingGame : GameState :=
  { id := "g", players := [], current_player_id := none, status := .waiting,
    board := emptyBoard, last_dice_value := none, last_dice1 := none, last_dice2 := none,
    is_pair := false, jail_attempts := [], moves_history := [], winner_id := none,
    turns_without_progress := 0 }

/-- `waitingGame` after a successful `add_player` of a red player `A`. -/
def waitingGameA : GameState :=
  { waitingGame with players := waitingGame.players ++
      [{ id := "A", user_id := "uA", color := .red, name := "PA",
         pieces := defaultPieces .red, score := 0, is_ai := false }] }

/-- An active two-player game: red `A` (to move, piece `red_0` on cell 2) and
blue `B` (piece `blue_0` on cell 10), last roll 5+3 (not a pair). -/
def sampleGame : GameState :=
  { id := "g"
    players :=
      [ mkPlayerT "A" .red
          [ mkPieceT "red_0" .red 2 .board, mkPieceT "red_1" .red (-1) .home,
            mkPieceT "red_2" .red (-1) .home, mkPieceT "red_3" .red (-1) .home ]
      , mkPlayerT "B" .blue
          [ mkPieceT "blue_0" .blue 10 .board, mkPieceT "blue_1" .blue (-1) .home,
            mkPieceT "blue_2" .blue (-1) .home, mkPieceT "blue_3" .blue (-1) .home ] ]
    current_player_id := some "A"
    status := .active
    board := boardOf [(2, ["red_0"]), (10, ["blue_0"])]
    last_dice_value := some 8, last_dice1 := some 5, last_dice2 := some 3
    is_pair := false, jail_attempts := [], moves_history := [], winner_id := none
    turns_without_progress := 0 }

/-- `sampleGame` with red's moving piece on cell 63, one step before red's
goal entry 0. -/
def sampleGameC4 : GameState :=
  { sampleGame with
    players :=
      [ mkPlayerT "A" .red
          [ mkPieceT "red_0" .red 63 .board, mkPieceT "red_1" .red (-1) .home,
            mkPieceT "red_2" .red (-1) .home, mkPieceT "red_3" .red (-1) .home ]
      , mkPlayerT "B" .blue
          [ mkPieceT "blue_0" .blue 10 .board, mkPieceT "blue_1" .blue (-1) .home,
            mkPieceT "blue_2" .blue (-1) .home, mkPieceT "blue_3" .blue (-1) .home ] ]
    board := boardOf [(63, ["red_0"]), (10, ["blue_0"])] }

/-- A three-player waiting game: `A` (red), `B` (blue), `C` (yellow), in
join order. -/
def gC3waiting : GameState :=
  { waitingGame with players :=
      [ mkPlayerT "A" .red (defaultPieces .red),
        mkPlayerT "B" .blue (defaultPieces .blue),
        mkPlayerT "C" .yellow (defaultPieces .yellow) ] }

/-- `gC3waiting` after `start_game` drew the shuffle `[A, C, B]` (the source
keeps only its head as the starting player). -/
def gC3started : GameState :=
  { gC3waiting with status := .active, current_player_id := some "A" }

/-- `gC3started` later in play: `A`'s piece `red_0` on cell 2, a non-pair
roll 3+4 stored. -/
def gC3game : GameState :=
  { gC3started with
    players :=
      [ mkPlayerT "A" .red
          [ mkPieceT "red_0" .red 2 .board, mkPieceT "red_1" .red (-1) .home,
            mkPieceT "red_2" .red (-1) .home, mkPieceT "red_3" .red (-1) .home ],
        mkPlayerT "B" .blue (defaultPieces .blue),
        mkPlayerT "C" .yellow (defaultPieces .yellow) ]
    board := boardOf [(2, ["red_0"])]
    last_dice_value := some 7, last_dice1 := some 3, last_dice2 := some 4
    is_pair := false }

/-- A player after `_auto_release_all_pieces` has run over their pieces. -/
def releasedPlayer (player : Player) : Player :=
  { player with pieces := player.pieces.map (releasePiece (startingPosition player.color)) }

/-- The per-piece jail map a resolved capture applies at the captured cell. -/
def jailById (qid : String) (p : Piece) : Piece :=
  if p.id = qid then { p with position := -1, status := .home } else p

/-- The per-player jail map a resolved capture applies. -/
def jailPlayerById (qid : String) (pl : Player) : Player :=
  { pl with pieces := pl.pieces.map (jailById qid) }

/-- The state a resolved singleton capture leaves behind: the one opposing
piece is jailed everywhere its id occurs and the destination bucket emptied. -/
def capturedState (g : GameState) (toPos : Int) (qid : String) : GameState :=
  { g with players := g.players.map (jailPlayerById qid),
           board := fun c => if c = toPos then [] else g.board c }

/-! ### Evaluator quantities, stated per piece (claim C6)

`claimEvaluate` renders the claimed formula word for word: crowned means
position 75 (the spec's glossary), and both penalty counts count own PIECES,
each at most once.  The `...Count`/`progressSum` family restates the
quantities the code actually computes, per piece, per pair and per triple. -/

/-- Count of a player's jailed pieces (position −1). -/
def jailedCount (player : Player) : Nat :=
  player.pieces.countP fun p => decide (p.position = -1)

/-- Count of a player's pieces the evaluator scores +50: any piece past the
circular track (position ≥ 68), lane pieces included. -/
def goalAreaCount (player : Player) : Nat :=
  player.pieces.countP fun p => decide (p.position ≥ BOARD_SIZE)

/-- Count of a player's CROWNED pieces (position 75), the quantity the claim
names. -/
def crownedCount (player : Player) : Nat :=
  player.pieces.countP fun p => decide (p.position = 75)

/-- Count of a player's pieces on one of the evaluator's safe cells. -/
def safeCellCount (player : Player) : Nat :=
  player.pieces.countP fun p => decide (p.position ∈ aiSafePositions)

/-- Sum of `min(pos, 67) / 67` over the player's in-transit track pieces. -/
def progressSum (player : Player) : ℚ :=
  (player.pieces.map fun p =>
    if 0 < p.position ∧ p.position < BOARD_SIZE then
      ((min p.position 67 : Int) : ℚ) / 67 else 0).sum

/-- Number of pairs (own piece on a non-safe track cell, opposing on-track
piece that reaches it with some die 1–6): what the code's vulnerability
counter really counts. -/
def vulnerablePairCount (g : GameState) (playerId : String) (player : Player) : Nat :=
  (player.pieces.map fun p =>
    if 0 < p.position ∧ p.position < BOARD_SIZE ∧ ¬ p.position ∈ aiSafePositions then
      (g.players.map fun other =>
        if other.id ≠ playerId then
          other.pieces.countP fun q =>
            decide ((0 ≤ q.position ∧ q.position < BOARD_SIZE) ∧
              ∃ k ∈ List.range 6, (q.position + (k + 1 : Nat)) % BOARD_SIZE = p.position)
        else 0).sum
    else 0).sum

/-- Number of triples (own on-track piece, die value 1–6, opposing player)
whose non-safe target cell holds a piece of that opponent: what the code's
capture-opportunity counter really counts. -/
def captureChanceCount (g : GameState) (playerId : String) (player : Player) : Nat :=
  (player.pieces.map fun p =>
    if 0 ≤ p.position ∧ p.position < BOARD_SIZE then
      ((List.range 6).map fun k =>
        if ¬ ((p.position + (k + 1 : Nat)) % BOARD_SIZE) ∈ aiSafePositions then
          g.players.countP fun other =>
            decide (other.id ≠ playerId ∧
              ((p.position + (k + 1 : Nat)) % BOARD_SIZE) ∈ other.pieces.map Piece.position)
        else 0).sum
    else 0).sum

/-- The claimed evaluator formula, rendered from the claim's words: −10 per
jailed piece, +50 per CROWNED piece, +20·Σ min(pos,67)/67 over in-transit
track pieces, +5 per safe-cell piece, −8 per vulnerable own PIECE (counted
once), +15 per own PIECE with a capture opportunity (counted once). -/
def claimEvaluate (g : GameState) (playerId : String) : ℚ :=
  match findPlayer g playerId with
  | none => -1000
  | some player =>
    let vulnerable : Nat := player.pieces.countP fun p =>
      decide (0 < p.position ∧ p.position < BOARD_SIZE ∧ ¬ p.position ∈ aiSafePositions ∧
        ∃ other ∈ g.players, other.id ≠ playerId ∧
          ∃ q ∈ other.pieces, (0 ≤ q.position ∧ q.position < BOARD_SIZE) ∧
            ∃ k ∈ List.range 6, (q.position + (k + 1 : Nat)) % BOARD_SIZE = p.position)
    let captureOpp : Nat := player.pieces.countP fun p =>
      decide (0 ≤ p.position ∧ p.position < BOARD_SIZE ∧
        ∃ k ∈ List.range 6,
          ¬ ((p.position + (k + 1 : Nat)) % BOARD_SIZE) ∈ aiSafePositions ∧
          ∃ other ∈ g.players, other.id ≠ playerId ∧
            ((p.position + (k + 1 : Nat)) % BOARD_SIZE) ∈ other.pieces.map Piece.position)
    0 - jailedCount player * 10 + crownedCount player * 50
      + progressSum player * 20 + safeCellCount player * 5
      - vulnerable * 8 + captureOpp * 15

/-- Player fixture for the evaluator: one lane piece at 70, three jailed. -/
def pC6A : Player :=
  mkPlayerT "A"
    .red
    [ mkPieceT "red_0" .red 70 .safe_zone, mkPieceT "red_1" .red (-1) .home,
      mkPieceT "red_2" .red (-1) .home, mkPieceT "red_3" .red (-1) .home ]

/-- Game fixture for the evaluator: only player `A`, as `pC6A`. -/
def gC6 : GameState :=
  { id := "g", players := [pC6A], current_player_id := some "A", status := .active,
    board := emptyBoard, last_dice_value := none, last_dice1 := none, last_dice2 := none,
    is_pair := false, jail_attempts := [], moves_history := [], winner_id := none,
    turns_without_progress := 0 }

/-! ### The board-occupancy color invariant (claim C5)

The occupancy map stores piece IDS; "pieces of at most one color in a cell"
reads each id back through the players' piece lists.  The engine's mutating
operations change positions, statuses and scores but never an id or a color,
which the `idColors` projection makes precise. -/

/-- The 68 circular-track cells (the keys of the Python board dict). -/
def trackCells : List Int := (List.range 68).map Int.ofNat

/-- The id/color projection of a piece list. -/
def pieceIdColors (ps : List Piece) : List (String × PlayerColor) :=
  ps.map fun p => (p.id, p.color)

/-- The id/color projection of all pieces of a player list. -/
def idColors (players : List Player) : List (String × PlayerColor) :=
  pieceIdColors (allPiecesOf players)

/-- All pieces whose ids sit in the given bucket have one color. -/
abbrev CellOneColor (players : List Player) (bucket : List String) : Prop :=
  ∀ id1 ∈ bucket, ∀ id2 ∈ bucket,
    ∀ p1 ∈ allPiecesOf players, ∀ p2 ∈ allPiecesOf players,
      p1.id = id1 → p2.id = id2 → p1.color = p2.color

/-- The claim's invariant as stated: EVERY track cell 0–67 holds pieces of
at most one color. -/
abbrev AllTrackOneColor (g : GameState) : Prop :=
  ∀ c ∈ trackCells, CellOneColor g.players (g.board c)

/-- The amended invariant: every NON-SAFE track cell holds pieces of at most
one color (the 12 safe cells admit lasting cross-color stacking). -/
abbrev NonSafeOneColor (g : GameState) : Prop :=
  ∀ c ∈ trackCells, ¬ isSafePosition c → CellOneColor g.players (g.board c)

/-- Ids determine colors: any two pieces carrying one id carry one color
(engine-generated ids are globally unique, so real states satisfy this). -/
abbrev ColorDet (players : List Player) : Prop :=
  ∀ p1 ∈ allPiecesOf players, ∀ p2 ∈ allPiecesOf players,
    p1.id = p2.id → p1.color = p2.color

/-- Two-player fixture for the safe-cell stacking counterexample: red piece
on track cell 10, blue piece on the safe cell 12. -/
def gC5 : GameState :=
  { id := "g"
    players :=
      [ mkPlayerT "A" .red
          [ mkPieceT "red_0" .red 10 .board, mkPieceT "red_1" .red (-1) .home,
            mkPieceT "red_2" .red (-1) .home, mkPieceT "red_3" .red (-1) .home ]
      , mkPlayerT "B" .blue
          [ mkPieceT "blue_0" .blue 12 .board, mkPieceT "blue_1" .blue (-1) .home,
            mkPieceT "blue_2" .blue (-1) .home, mkPieceT "blue_3" .blue (-1) .home ] ]
    current_player_id := some "A", status := .active
    board := boardOf [(10, ["red_0"]), (12, ["blue_0"])]
    last_dice_value := none, last_dice1 := none, last_dice2 := none
    is_pair := false, jail_attempts := [], moves_history := [], winner_id := none
    turns_without_progress := 0 }

/-! ### Supporting lemmas -/

/-- `mapPlayerFirst` commutes with player lookup when the update keeps ids. -/
theorem find?_mapPlayerFirst (players : List Player) (pid : String) (f : Player → Player)
    (hf : ∀ pl, (f pl).id = pl.id) :
    (mapPlayerFirst players pid f).find? (fun pl => pl.id = pid) =
      (players.find? (fun pl => pl.id = pid)).map f := by
  induction players with
  | nil => rfl
  | cons pl rest ih =>
    by_cases h : pl.id = pid
    · simp [mapPlayerFirst, h, List.find?_cons, hf]
    · simp [mapPlayerFirst, h, List.find?_cons, ih]

/-- Explicit description of `autoReleaseAllPieces` on a state where the
player lookup succeeds. -/
theorem autoRelease_eq (g : GameState) (playerId : String) (player : Player)
    (hfind : findPlayer g playerId = some player) :
    (autoReleaseAllPieces g playerId).1 =
      { g with
        players := mapPlayerFirst g.players playerId (fun pl =>
          { pl with pieces := pl.pieces.map (releasePiece (startingPosition player.color)) }),
        board := fun c =>
          if c = startingPosition player.color then
            g.board (startingPosition player.color) ++
              ((player.pieces.filter fun p => decide (p.status = .home)).map Piece.id)
          else g.board c,
        moves_history := g.moves_history ++
          ((player.pieces.filter fun p => decide (p.status = .home)).map fun p =>
            (⟨player.id, p.id, -1, startingPosition player.color, 0, .exit_home, none⟩ :
              GameMove)) } := by
  unfold autoReleaseAllPieces
  rw [hfind]

/-- On the circular track, `_calculate_steps_to_position` returns exactly the
number of forward steps that reaches the target. -/
theorem calculateSteps_eq (pos entry : Int) (i : Nat)
    (hpos : 0 ≤ pos ∧ pos < 68) (hi : 1 ≤ (i : Int) ∧ (i : Int) ≤ 67)
    (heq : (pos + (i : Int)) % 68 = entry) :
    calculateStepsToPosition pos entry = i := by
  unfold calculateStepsToPosition BOARD_SIZE
  split_ifs <;> omega

/-- A piece landing exactly `d` steps before its goal entry passes the entry. -/
theorem willPass_of_exact (pos entry d : Int) (hd : 1 ≤ d ∧ d ≤ 6)
    (hland : (pos + d) % 68 = entry) :
    WillPassGoalEntry pos d entry := by
  refine ⟨(d - 1).toNat, ?_, ?_⟩
  · simp only [List.mem_range]
    omega
  · show (pos + ((d - 1).toNat + 1 : Nat)) % BOARD_SIZE = entry
    have : (((d - 1).toNat + 1 : Nat) : Int) = d := by omega
    rw [this]
    exact hland

/-- The four start cells are safe cells. -/
theorem startingPosition_safe (c : PlayerColor) : isSafePosition (startingPosition c) := by
  cases c <;> decide

/-- Any move in `goalEntryMoves` is the moving piece's, targets the goal lane
and has type `ENTER_GOAL`. -/
theorem mem_goalEntryMoves (g : GameState) (piece : Piece) (d : Int) (m : ValidMove)
    (hm : m ∈ goalEntryMoves g piece d) :
    m.piece_id = piece.id ∧ m.move_type = .enter_goal ∧ BOARD_SIZE ≤ m.to_position := by
  unfold goalEntryMoves at hm
  dsimp only at hm
  split_ifs at hm with h1 h2
  · simp only [List.mem_singleton] at hm
    subst hm
    refine ⟨rfl, rfl, ?_⟩
    show BOARD_SIZE ≤ BOARD_SIZE + _ - 1
    omega
  · cases hm
  · cases hm

/-- Any move in `trackMoves` is the circular advance, with type `CAPTURE`
exactly when `_would_capture` holds there. -/
theorem mem_trackMoves (g : GameState) (piece : Piece) (d : Int) (m : ValidMove)
    (hm : m ∈ trackMoves g piece d) :
    m.piece_id = piece.id ∧ m.to_position = calculateNextPosition piece.position d ∧
    CanMoveToPosition g piece m.to_position ∧
    m.move_type = (if WouldCapture g piece m.to_position then .capture else .normal_move) := by
  unfold trackMoves at hm
  dsimp only at hm
  split_ifs at hm with h1 h2
  · simp only [List.mem_singleton] at hm
    subst hm
    dsimp only
    exact ⟨rfl, rfl, h1, by rw [if_pos h2]⟩
  · simp only [List.mem_singleton] at hm
    subst hm
    dsimp only
    exact ⟨rfl, rfl, h1, by rw [if_neg h2]⟩
  · cases hm

/-- Shape of any move produced by `_get_piece_valid_moves`. -/
theorem mem_getPieceValidMoves (g : GameState) (piece : Piece) (d : Int) (m : ValidMove)
    (hm : m ∈ getPieceValidMoves g piece d) :
    m.piece_id = piece.id ∧
    ((piece.status = .home ∧ m.move_type = .exit_home ∧
        m.to_position = startingPosition piece.color) ∨
     ((piece.status = .board ∨ piece.status = .safe_zone) ∧ m.move_type = .enter_goal ∧
        BOARD_SIZE ≤ m.to_position) ∨
     ((piece.status = .board ∨ piece.status = .safe_zone) ∧
      m.to_position = calculateNextPosition piece.position d ∧
      CanMoveToPosition g piece m.to_position ∧
      m.move_type = (if WouldCapture g piece m.to_position then .capture else .normal_move))) := by
  unfold getPieceValidMoves at hm
  cases hst : piece.status <;> rw [hst] at hm <;> dsimp only at hm
  · split_ifs at hm with h1 h2
    · simp only [List.mem_singleton] at hm
      subst hm
      exact ⟨rfl, Or.inl ⟨rfl, rfl, rfl⟩⟩
    · cases hm
    · cases hm
  · split_ifs at hm with h1
    · obtain ⟨ha, hb, hc⟩ := mem_goalEntryMoves g piece d m hm
      exact ⟨ha, Or.inr (Or.inl ⟨Or.inl rfl, hb, hc⟩)⟩
    · obtain ⟨h1', h2', h3', h4'⟩ := mem_trackMoves g piece d m hm
      exact ⟨h1', Or.inr (Or.inr ⟨Or.inl rfl, h2', h3', h4'⟩)⟩
  · split_ifs at hm with h1 h2 h3 h4
    · simp only [List.mem_singleton] at hm
      subst hm
      refine ⟨rfl, Or.inr (Or.inl ⟨Or.inr rfl, rfl, ?_⟩)⟩
      show BOARD_SIZE ≤ piece.position + d
      omega
    · cases hm
    · cases hm
    · obtain ⟨ha, hb, hc⟩ := mem_goalEntryMoves g piece d m hm
      exact ⟨ha, Or.inr (Or.inl ⟨Or.inr rfl, hb, hc⟩)⟩
    · obtain ⟨h1', h2', h3', h4'⟩ := mem_trackMoves g piece d m hm
      exact ⟨h1', Or.inr (Or.inr ⟨Or.inr rfl, h2', h3', h4'⟩)⟩
  · cases hm

/-- A two-list concatenation equal to a singleton. -/
theorem append_eq_singleton {α : Type} {l₁ l₂ : List α} {a : α} (h : l₁ ++ l₂ = [a]) :
    (l₁ = [a] ∧ l₂ = []) ∨ (l₁ = [] ∧ l₂ = [a]) := by
  cases l₁ with
  | nil => exact Or.inr ⟨rfl, by simpa using h⟩
  | cons x t =>
    simp only [List.cons_append, List.cons.injEq] at h
    obtain ⟨rfl, h2⟩ := h
    rcases List.append_eq_nil.mp h2 with ⟨rfl, rfl⟩
    exact Or.inl ⟨rfl, rfl⟩

/-- Unfolding equation for `jailFirstOpposing` on a cons cell. -/
theorem jailFirstOpposing_cons (p : Piece) (rest : List Piece) (pid : String)
    (cap : PlayerColor) :
    jailFirstOpposing (p :: rest) pid cap =
      if p.id = pid ∧ p.color ≠ cap then
        ({ p with position := -1, status := .home } :: rest, true)
      else
        (p :: (jailFirstOpposing rest pid cap).1, (jailFirstOpposing rest pid cap).2) := by
  conv_lhs => rw [jailFirstOpposing]

/-- Unfolding equation for `captureScanPlayers` on a cons cell. -/
theorem captureScanPlayers_cons (pl : Player) (rest : List Player) (pid : String)
    (cap : PlayerColor) :
    captureScanPlayers (pl :: rest) pid cap =
      ({ pl with pieces := (jailFirstOpposing pl.pieces pid cap).1 } ::
          (captureScanPlayers rest pid cap).1,
        (if (jailFirstOpposing pl.pieces pid cap).2 then 1 else 0) +
          (captureScanPlayers rest pid cap).2) := by
  conv_lhs => rw [captureScanPlayers]

/-- `jailFirstOpposing` fixes a list holding no piece of the given id. -/
theorem jailFirstOpposing_of_no_id (ps : List Piece) (pid : String) (cap : PlayerColor)
    (h : ∀ p ∈ ps, p.id ≠ pid) :
    jailFirstOpposing ps pid cap = (ps, false) := by
  induction ps with
  | nil => rfl
  | cons p rest ih =>
    rw [jailFirstOpposing_cons, if_neg (fun hc => h p (by simp) hc.1),
      ih (fun x hx => h x (by simp [hx]))]

/-- The jail map is the identity on a list with no piece of the id. -/
theorem map_jailById_of_no_id (ps : List Piece) (qid : String)
    (h : ∀ p ∈ ps, p.id ≠ qid) :
    ps.map (jailById qid) = ps := by
  unfold jailById
  rw [List.map_congr_left (fun p hp => if_neg (h p hp))]
  exact List.map_id' _

/-- The per-player jail map is the identity when no piece has the id. -/
theorem map_jailPlayerById_of_no_id (players : List Player) (qid : String)
    (h : ∀ x ∈ allPiecesOf players, x.id ≠ qid) :
    players.map (jailPlayerById qid) = players := by
  induction players with
  | nil => rfl
  | cons pl rest ih =>
    rw [List.map_cons, ih (fun x hx => h x (by
      simp only [allPiecesOf, List.mem_flatMap] at hx ⊢
      obtain ⟨pl', h1, h2⟩ := hx
      exact ⟨pl', by simp [h1], h2⟩))]
    unfold jailPlayerById
    rw [map_jailById_of_no_id _ _ (fun p hp => h p (by
      simp only [allPiecesOf, List.mem_flatMap]
      exact ⟨pl, by simp, hp⟩))]

/-- `jailFirstOpposing` on a list whose only id-match is the opposing `q`
jails exactly that occurrence (equivalently: applies the jail map). -/
theorem jailFirstOpposing_single (ps : List Piece) (q : Piece) (cap : PlayerColor)
    (hfilter : ps.filter (fun p => decide (p.id = q.id)) = [q]) (hcol : q.color ≠ cap) :
    jailFirstOpposing ps q.id cap = (ps.map (jailById q.id), true) := by
  rw [List.filter_eq_cons_iff] at hfilter
  obtain ⟨l₁, l₂, rfl, hl₁, -, hl₂⟩ := hfilter
  rw [List.filter_eq_nil_iff] at hl₂
  simp only [decide_eq_true_eq] at hl₁ hl₂
  induction l₁ with
  | nil =>
    rw [List.nil_append, jailFirstOpposing_cons, if_pos ⟨rfl, hcol⟩, List.map_cons,
      show jailById q.id q = { q with position := -1, status := .home } from if_pos rfl,
      map_jailById_of_no_id _ _ hl₂]
  | cons p rest ih =>
    rw [List.cons_append, jailFirstOpposing_cons,
      if_neg (fun hc => hl₁ p (by simp) hc.1),
      ih (fun x hx => hl₁ x (by simp [hx])), List.map_cons,
      show jailById q.id p = p from if_neg (hl₁ p (by simp))]

/-- `captureScanPlayers` when exactly one piece over all players has the
scanned id, and it is of an opposing color: every player's pieces get the
conditional jail map and the id is appended once to the removal list. -/
theorem captureScanPlayers_single (players : List Player) (q : Piece) (cap : PlayerColor)
    (hfilter : (allPiecesOf players).filter (fun p => decide (p.id = q.id)) = [q])
    (hcol : q.color ≠ cap) :
    captureScanPlayers players q.id cap = (players.map (jailPlayerById q.id), 1) := by
  induction players with
  | nil => cases hfilter
  | cons pl rest ih =>
    rw [show allPiecesOf (pl :: rest) = pl.pieces ++ allPiecesOf rest from rfl,
      List.filter_append] at hfilter
    rcases append_eq_singleton hfilter with ⟨h₁, h₂⟩ | ⟨h₁, h₂⟩
    · have hrest : ∀ x ∈ allPiecesOf rest, x.id ≠ q.id := by
        intro x hx
        have := List.filter_eq_nil_iff.mp h₂ x hx
        simpa using this
      have hscan : captureScanPlayers rest q.id cap = (rest, 0) := by
        clear ih h₂ hfilter
        induction rest with
        | nil => rfl
        | cons pl' rest' ih' =>
          rw [captureScanPlayers_cons,
            jailFirstOpposing_of_no_id _ _ _
              (fun p hp => hrest p (by simp [allPiecesOf, hp])),
            ih' (fun x hx => hrest x (by simp [allPiecesOf]; exact Or.inr (by simpa [allPiecesOf] using hx)))]
          rfl
      rw [captureScanPlayers_cons, jailFirstOpposing_single pl.pieces q cap h₁ hcol, hscan]
      simp only [if_true]
      refine congrArg₂ Prod.mk ?_ rfl
      rw [List.map_cons, map_jailPlayerById_of_no_id _ _ hrest]
      rfl
    · have hpl : ∀ p ∈ pl.pieces, p.id ≠ q.id := by
        intro p hp
        have := List.filter_eq_nil_iff.mp h₁ p hp
        simpa using this
      rw [captureScanPlayers_cons, jailFirstOpposing_of_no_id _ _ _ hpl, ih h₂]
      simp only [if_false, Bool.false_eq_true, Nat.zero_add, List.map_cons]
      refine congrArg₂ Prod.mk ?_ rfl
      refine congrArg₂ List.cons ?_ rfl
      show pl = jailPlayerById q.id pl
      unfold jailPlayerById
      rw [map_jailById_of_no_id _ _ hpl]

/-- `_capture_piece` when the destination bucket holds exactly the id of one
opposing piece `q`, unique over all players: `q` is jailed, the bucket is
emptied, and `q.id` is reported captured. -/
theorem captureScanBucket_single (players : List Player) (q : Piece) (cap : PlayerColor)
    (hmatch : (allPiecesOf players).filter (fun p => decide (p.id = q.id)) = [q])
    (hcol : q.color ≠ cap) :
    captureScanBucket players [q.id] cap =
      (players.map (jailPlayerById q.id), [q.id], some q.id) := by
  simp only [captureScanBucket, captureScanPlayers_single players q cap hmatch hcol]
  norm_num

/-- `_capture_piece` in the singleton scenario: `q` is jailed, the bucket is
emptied, `q.id` is reported captured. -/
theorem capturePiece_singleton (g : GameState) (toPos : Int) (q : Piece) (cap : PlayerColor)
    (h0 : 0 ≤ toPos ∧ toPos < BOARD_SIZE)
    (hbucket : g.board toPos = [q.id])
    (hmatch : (allPieces g).filter (fun p => decide (p.id = q.id)) = [q])
    (hcol : q.color ≠ cap) :
    capturePiece g toPos cap = (capturedState g toPos q.id, some q.id) := by
  unfold capturePiece
  rw [if_pos h0, hbucket, captureScanBucket_single g.players q cap hmatch hcol]
  have hb : List.foldl List.erase [q.id] [q.id] = [] := by simp
  dsimp only
  rw [hb]
  rfl

/-- Membership in `allPiecesOf`. -/
theorem mem_allPiecesOf {q : Piece} {players : List Player} :
    q ∈ allPiecesOf players ↔ ∃ pl ∈ players, q ∈ pl.pieces := by
  simp [allPiecesOf]

/-- `setPieceFirst` keeps every piece of a different id. -/
theorem mem_setPieceFirst_of_ne (ps : List Piece) (pieceId : String) (pos : Int)
    (st : PieceStatus) (q : Piece) (hq : q ∈ ps) (hne : q.id ≠ pieceId) :
    q ∈ setPieceFirst ps pieceId pos st := by
  induction ps with
  | nil => cases hq
  | cons p rest ih =>
    unfold setPieceFirst
    rcases List.mem_cons.mp hq with rfl | hmem
    · rw [if_neg hne]
      exact List.mem_cons_self _ _
    · split_ifs with h
      · exact List.mem_cons_of_mem _ hmem
      · exact List.mem_cons_of_mem _ (ih hmem)

/-- A piece of `setPieceFirst` is an old piece or the moved one. -/
theorem of_mem_setPieceFirst (ps : List Piece) (pieceId : String) (pos : Int)
    (st : PieceStatus) (q : Piece) (hq : q ∈ setPieceFirst ps pieceId pos st) :
    q ∈ ps ∨ ∃ p ∈ ps, p.id = pieceId ∧ q = { p with position := pos, status := st } := by
  induction ps with
  | nil => cases hq
  | cons p rest ih =>
    unfold setPieceFirst at hq
    split_ifs at hq with h
    · rcases List.mem_cons.mp hq with rfl | hmem
      · exact Or.inr ⟨p, by simp, h, rfl⟩
      · exact Or.inl (List.mem_cons_of_mem _ hmem)
    · rcases List.mem_cons.mp hq with rfl | hmem
      · exact Or.inl (by simp)
      · rcases ih hmem with h1 | ⟨p', hp', h2, h3⟩
        · exact Or.inl (List.mem_cons_of_mem _ h1)
        · exact Or.inr ⟨p', List.mem_cons_of_mem _ hp', h2, h3⟩

/-- Forward piece membership through `mapPlayerFirst`. -/
theorem mem_mapPlayerFirst_pieces (players : List Player) (pid : String)
    (f : Player → Player) (q : Piece)
    (hf : ∀ pl, q ∈ pl.pieces → q ∈ (f pl).pieces)
    (hq : q ∈ allPiecesOf players) :
    q ∈ allPiecesOf (mapPlayerFirst players pid f) := by
  induction players with
  | nil => cases (by simpa [allPiecesOf] using hq : q ∈ (∅ : List Piece))
  | cons pl rest ih =>
    have hq' : q ∈ pl.pieces ∨ q ∈ allPiecesOf rest := by
      simpa [allPiecesOf] using hq
    unfold mapPlayerFirst
    split_ifs with h
    · rcases hq' with h1 | h2
      · exact mem_allPiecesOf.mpr ⟨f pl, by simp, hf pl h1⟩
      · exact mem_allPiecesOf.mpr (by
          obtain ⟨pl', h3, h4⟩ := mem_allPiecesOf.mp h2
          exact ⟨pl', by simp [h3], h4⟩)
    · rcases hq' with h1 | h2
      · exact mem_allPiecesOf.mpr ⟨pl, by simp, h1⟩
      · obtain ⟨pl', h3, h4⟩ := mem_allPiecesOf.mp (ih h2)
        exact mem_allPiecesOf.mpr ⟨pl', by simp [h3], h4⟩

/-- Backward piece membership through `mapPlayerFirst`. -/
theorem of_mem_mapPlayerFirst_pieces (players : List Player) (pid : String)
    (f : Player → Player) (q : Piece)
    (hq : q ∈ allPiecesOf (mapPlayerFirst players pid f)) :
    q ∈ allPiecesOf players ∨ ∃ pl ∈ players, q ∈ (f pl).pieces := by
  induction players with
  | nil => cases (by simpa [mapPlayerFirst, allPiecesOf] using hq : q ∈ (∅ : List Piece))
  | cons pl rest ih =>
    unfold mapPlayerFirst at hq
    split_ifs at hq with h
    · have hq' : q ∈ (f pl).pieces ∨ q ∈ allPiecesOf rest := by
        simpa [allPiecesOf] using hq
      rcases hq' with h1 | h2
      · exact Or.inr ⟨pl, by simp, h1⟩
      · exact Or.inl (mem_allPiecesOf.mpr (by
          obtain ⟨pl', h3, h4⟩ := mem_allPiecesOf.mp h2
          exact ⟨pl', by simp [h3], h4⟩))
    · have hq' : q ∈ pl.pieces ∨ q ∈ allPiecesOf (mapPlayerFirst rest pid f) := by
        simpa [allPiecesOf] using hq
      rcases hq' with h1 | h2
      · exact Or.inl (mem_allPiecesOf.mpr ⟨pl, by simp, h1⟩)
      · rcases ih h2 with h3 | ⟨pl', h4, h5⟩
        · exact Or.inl (mem_allPiecesOf.mpr (by
            obtain ⟨pl', h6, h7⟩ := mem_allPiecesOf.mp h3
            exact ⟨pl', by simp [h6], h7⟩))
        · exact Or.inr ⟨pl', by simp [h4], h5⟩

/-- Stage lemmas: the board-only stages do not touch the players. -/
theorem removeFromOldCell_players (g1 : GameState) (pieceId : String) (fromPos : Int) :
    (removeFromOldCell g1 pieceId fromPos).players = g1.players := by
  unfold removeFromOldCell
  split_ifs <;> rfl

/-- `placeOnBoard` does not touch the players. -/
theorem placeOnBoard_players (g : GameState) (pieceId : String) (toPos : Int) :
    (placeOnBoard g pieceId toPos).players = g.players := by
  unfold placeOnBoard
  split_ifs <;> rfl

/-- `nextTurn` does not touch the players. -/
theorem nextTurn_players (g : GameState) : (nextTurn g).players = g.players := rfl

/-- `scoreFor` keeps every piece. -/
theorem scoreFor_keeps (mt : MoveType) (g : GameState) (pid : String) (q : Piece)
    (hq : q ∈ allPiecesOf g.players) : q ∈ allPiecesOf (scoreFor mt g pid).players := by
  unfold scoreFor
  split_ifs <;>
    first
      | exact mem_mapPlayerFirst_pieces _ _ _ _ (fun _ h => h) hq
      | exact hq

/-- Backward membership through `scoreFor`. -/
theorem of_scoreFor_pieces (mt : MoveType) (g : GameState) (pid : String) (q : Piece)
    (hq : q ∈ allPiecesOf (scoreFor mt g pid).players) : q ∈ allPiecesOf g.players := by
  unfold scoreFor at hq
  split_ifs at hq <;>
    first
      | exact hq
      | rcases of_mem_mapPlayerFirst_pieces _ _ _ _ hq with h | ⟨pl, hpl, h⟩
        <;> first
          | exact h
          | exact mem_allPiecesOf.mpr ⟨pl, hpl, h⟩

/-- `finishTurn` keeps every piece. -/
theorem finishTurn_keeps (g : GameState) (pid : String) (ilm : Bool) (q : Piece)
    (hq : q ∈ allPiecesOf g.players) : q ∈ allPiecesOf (finishTurn g pid ilm).players := by
  unfold finishTurn
  dsimp only
  split_ifs <;>
    first
      | exact mem_mapPlayerFirst_pieces _ _ _ _ (fun _ h => h) hq
      | exact hq

/-- Backward membership through `finishTurn`. -/
theorem of_finishTurn_pieces (g : GameState) (pid : String) (ilm : Bool) (q : Piece)
    (hq : q ∈ allPiecesOf (finishTurn g pid ilm).players) : q ∈ allPiecesOf g.players := by
  unfold finishTurn at hq
  dsimp only at hq
  split_ifs at hq <;>
    first
      | exact hq
      | rcases of_mem_mapPlayerFirst_pieces _ _ _ _ hq with h | ⟨pl, hpl, h⟩
        <;> first
          | exact h
          | exact mem_allPiecesOf.mpr ⟨pl, hpl, h⟩

/-- The move record `finishMove` logs. -/
theorem finishMove_record (g1 : GameState) (player : Player) (piece : Piece)
    (fromPos toPos d : Int) (ilm : Bool) (mt : MoveType) (cap : Option String) :
    (finishMove g1 player piece fromPos toPos d ilm mt cap).2 =
      ⟨player.id, piece.id, fromPos, toPos, d, mt, cap⟩ := rfl

/-- `finishMove` keeps every piece whose id differs from the moved piece's. -/
theorem finishMove_keeps_pieces (g1 : GameState) (player : Player) (piece : Piece)
    (fromPos toPos d : Int) (ilm : Bool) (mt : MoveType) (cap : Option String)
    (q : Piece) (hq : q ∈ allPieces g1) (hne : q.id ≠ piece.id) :
    q ∈ allPieces (finishMove g1 player piece fromPos toPos d ilm mt cap).1 := by
  unfold finishMove preTurnState
  dsimp only
  apply finishTurn_keeps
  apply scoreFor_keeps
  rw [placeOnBoard_players]
  apply mem_mapPlayerFirst_pieces _ _ _ _
    (fun pl hmem => mem_setPieceFirst_of_ne _ _ _ _ _ hmem hne)
  rw [removeFromOldCell_players]
  exact hq

/-- Any piece of the `finishMove` result is a piece of the input state or the
moved piece at its new position/status. -/
theorem of_finishMove_pieces (g1 : GameState) (player : Player) (piece : Piece)
    (fromPos toPos d : Int) (ilm : Bool) (mt : MoveType) (cap : Option String)
    (q : Piece) (hq : q ∈ allPieces (finishMove g1 player piece fromPos toPos d ilm mt cap).1) :
    q ∈ allPieces g1 ∨ ∃ p ∈ allPieces g1, p.id = piece.id ∧
      q = { p with position := toPos, status := statusOfPosition toPos } := by
  unfold finishMove preTurnState at hq
  dsimp only at hq
  have hq2 := of_scoreFor_pieces _ _ _ _ (of_finishTurn_pieces _ _ _ _ hq)
  rw [placeOnBoard_players] at hq2
  rcases of_mem_mapPlayerFirst_pieces _ _ _ _ hq2 with h | ⟨pl, hpl, h⟩
  · rw [removeFromOldCell_players] at h
    exact Or.inl h
  · rw [removeFromOldCell_players] at hpl
    rcases of_mem_setPieceFirst _ _ _ _ _ h with h3 | ⟨p, hp, h4, h5⟩
    · exact Or.inl (mem_allPiecesOf.mpr ⟨pl, hpl, h3⟩)
    · exact Or.inr ⟨p, mem_allPiecesOf.mpr ⟨pl, hpl, hp⟩, h4, h5⟩

/-- `resolveCapture` when no capture fires. -/
theorem resolveCapture_no_capture (g : GameState) (piece : Piece) (toPos : Int)
    (h : piece.status = .home ∨ BOARD_SIZE ≤ toPos ∨ ¬ WouldCapture g piece toPos) :
    (resolveCapture g piece toPos).1 = g ∧ (resolveCapture g piece toPos).2.2 = none ∧
    (resolveCapture g piece toPos).2.1 ≠ .capture := by
  unfold resolveCapture
  by_cases h1 : piece.status = .home
  · rw [if_pos h1]
    exact ⟨rfl, rfl, by simp⟩
  · rw [if_neg h1]
    by_cases h2 : toPos ≥ BOARD_SIZE
    · rw [if_pos h2]
      exact ⟨rfl, rfl, by simp⟩
    · rw [if_neg h2]
      have h3 : ¬ WouldCapture g piece toPos := by
        rcases h with h | h | h
        · exact absurd h h1
        · exact absurd h h2
        · exact h
      rw [if_neg h3]
      exact ⟨rfl, rfl, by simp⟩

/-- `resolveCapture` in the singleton-capture scenario. -/
theorem resolveCapture_capture (g : GameState) (piece : Piece) (toPos : Int) (q : Piece)
    (hhome : piece.status ≠ .home)
    (hw : WouldCapture g piece toPos)
    (hbucket : g.board toPos = [q.id])
    (hmatch : (allPieces g).filter (fun p => decide (p.id = q.id)) = [q])
    (hcol : q.color ≠ piece.color) :
    resolveCapture g piece toPos =
      (capturedState g toPos q.id, MoveType.capture, some q.id) := by
  have h0 : 0 ≤ toPos ∧ toPos < BOARD_SIZE := hw.2.1
  unfold resolveCapture
  rw [if_neg hhome, if_neg (by omega : ¬ toPos ≥ BOARD_SIZE), if_pos hw,
    capturePiece_singleton g toPos q piece.color h0 hbucket hmatch hcol]

/-- Inversion of a successful `make_move`. -/
theorem makeMove_inv (g : GameState) (playerId pieceId : String) (toPosition diceValue : Int)
    (isLastMove : Bool) (g' : GameState) (rec : GameMove)
    (h : makeMove g playerId pieceId toPosition diceValue isLastMove = some (g', rec)) :
    ∃ player piece, findPlayer g playerId = some player ∧
      player.pieces.find? (fun p => p.id = pieceId) = some piece ∧
      (∃ m ∈ getPieceValidMoves g piece diceValue,
        m.piece_id = pieceId ∧ m.to_position = toPosition) ∧
      executeMove g player piece toPosition diceValue isLastMove = (g', rec) ∧
      g.current_player_id = some playerId := by
  unfold makeMove at h
  split_ifs at h with h1 h2
  rcases hfind : findPlayer g playerId with _ | player
  · rw [hfind] at h
    cases h
  · rw [hfind] at h
    dsimp only at h
    rcases hpc : player.pieces.find? (fun p => p.id = pieceId) with _ | piece
    · rw [hpc] at h
      cases h
    · rw [hpc] at h
      dsimp only at h
      split_ifs at h with h3
      obtain ⟨m, hm, hmb⟩ := List.any_eq_true.mp h3
      rw [Bool.and_eq_true, decide_eq_true_eq, decide_eq_true_eq] at hmb
      exact ⟨player, piece, rfl, hpc, ⟨m, hm, hmb.1, hmb.2⟩, (Option.some.injEq _ _).mp h,
        by simpa using h2⟩

/-- Backward membership through the capture jail map. -/
theorem of_mem_map_jailPlayer (players : List Player) (qid : String) (p' : Piece)
    (hp' : p' ∈ allPiecesOf (players.map (jailPlayerById qid))) :
    ∃ p ∈ allPiecesOf players, p' = jailById qid p := by
  obtain ⟨pl', hpl', hmem⟩ := mem_allPiecesOf.mp hp'
  obtain ⟨pl, hpl, rfl⟩ := List.mem_map.mp hpl'
  obtain ⟨p, hp, rfl⟩ := List.mem_map.mp hmem
  exact ⟨p, mem_allPiecesOf.mpr ⟨pl, hpl, hp⟩, rfl⟩

/-- Forward membership through the capture jail map, for unaffected ids. -/
theorem mem_map_jailPlayer_of_ne (players : List Player) (qid : String) (p : Piece)
    (hp : p ∈ allPiecesOf players) (hne : p.id ≠ qid) :
    p ∈ allPiecesOf (players.map (jailPlayerById qid)) := by
  obtain ⟨pl, hpl, hmem⟩ := mem_allPiecesOf.mp hp
  refine mem_allPiecesOf.mpr ⟨jailPlayerById qid pl, List.mem_map_of_mem _ hpl, ?_⟩
  refine List.mem_map.mpr ⟨p, hmem, ?_⟩
  unfold jailById
  rw [if_neg hne]

/-- `mapPlayerFirst` keeps the key list when the update keeps ids. -/
theorem mapPlayerFirst_ids (players : List Player) (pid : String) (f : Player → Player)
    (hf : ∀ pl, (f pl).id = pl.id) :
    (mapPlayerFirst players pid f).map Player.id = players.map Player.id := by
  induction players with
  | nil => rfl
  | cons pl rest ih =>
    unfold mapPlayerFirst
    split_ifs with h
    · simp [hf]
    · simp [ih]

/-- The capture scan keeps the key list. -/
theorem captureScanPlayers_ids (players : List Player) (pid : String) (cap : PlayerColor) :
    ((captureScanPlayers players pid cap).1).map Player.id = players.map Player.id := by
  induction players with
  | nil => rfl
  | cons pl rest ih => simp [captureScanPlayers_cons, ih]

/-- The whole-bucket capture scan keeps the key list. -/
theorem captureScanBucket_ids (players : List Player) (bucket : List String)
    (cap : PlayerColor) :
    ((captureScanBucket players bucket cap).1).map Player.id = players.map Player.id := by
  induction bucket generalizing players with
  | nil => rfl
  | cons pid rest ih =>
    show ((captureScanBucket (captureScanPlayers players pid cap).1 rest cap).1).map
      Player.id = _
    rw [ih, captureScanPlayers_ids]

/-- `_capture_piece` keeps `current_player_id`, `is_pair`, `winner_id` and
the players' key list. -/
theorem capturePiece_scalars (g : GameState) (pos : Int) (cap : PlayerColor) :
    ((capturePiece g pos cap).1).current_player_id = g.current_player_id ∧
    ((capturePiece g pos cap).1).is_pair = g.is_pair ∧
    ((capturePiece g pos cap).1).winner_id = g.winner_id ∧
    ((capturePiece g pos cap).1).players.map Player.id = g.players.map Player.id := by
  unfold capturePiece
  split_ifs
  · exact ⟨rfl, rfl, rfl, captureScanBucket_ids _ _ _⟩
  · exact ⟨rfl, rfl, rfl, rfl⟩

/-- `resolveCapture` keeps the same scalar fields and key list. -/
theorem resolveCapture_scalars (g : GameState) (piece : Piece) (toPos : Int) :
    ((resolveCapture g piece toPos).1).current_player_id = g.current_player_id ∧
    ((resolveCapture g piece toPos).1).is_pair = g.is_pair ∧
    ((resolveCapture g piece toPos).1).winner_id = g.winner_id ∧
    ((resolveCapture g piece toPos).1).players.map Player.id = g.players.map Player.id := by
  unfold resolveCapture
  split_ifs
  · exact ⟨rfl, rfl, rfl, rfl⟩
  · exact ⟨rfl, rfl, rfl, rfl⟩
  · exact capturePiece_scalars g toPos piece.color
  · exact ⟨rfl, rfl, rfl, rfl⟩

/-- `preTurnState` keeps the same scalar fields and key list. -/
theorem preTurnState_scalars (g1 : GameState) (player : Player) (piece : Piece)
    (fromPos toPos d : Int) (mt : MoveType) (cap : Option String) :
    (preTurnState g1 player piece fromPos toPos d mt cap).current_player_id =
        g1.current_player_id ∧
    (preTurnState g1 player piece fromPos toPos d mt cap).is_pair = g1.is_pair ∧
    (preTurnState g1 player piece fromPos toPos d mt cap).winner_id = g1.winner_id ∧
    (preTurnState g1 player piece fromPos toPos d mt cap).players.map Player.id =
        g1.players.map Player.id := by
  unfold preTurnState removeFromOldCell placeOnBoard scoreFor
  dsimp only
  split_ifs <;> refine ⟨rfl, rfl, rfl, ?_⟩ <;>
    first
      | rw [mapPlayerFirst_ids _ _ (addScore 10) (fun _ => rfl),
          mapPlayerFirst_ids _ _ (movePieceIn piece.id toPos) (fun _ => rfl)]
      | rw [mapPlayerFirst_ids _ _ (addScore 50) (fun _ => rfl),
          mapPlayerFirst_ids _ _ (movePieceIn piece.id toPos) (fun _ => rfl)]
      | rw [mapPlayerFirst_ids _ _ (movePieceIn piece.id toPos) (fun _ => rfl)]

/-- The three outcomes of `finishTurn`. -/
theorem finishTurn_disj (g6 : GameState) (pid : String) (ilm : Bool) :
    ((finishTurn g6 pid ilm).winner_id = some pid ∧
      (finishTurn g6 pid ilm).current_player_id = g6.current_player_id) ∨
    (finishTurn g6 pid ilm = nextTurn g6 ∧ (ilm = true ∧ g6.is_pair = false)) ∨
    (finishTurn g6 pid ilm = g6 ∧ ¬ (ilm = true ∧ ¬ g6.is_pair = true)) := by
  unfold finishTurn
  dsimp only
  split_ifs with h1 h2
  · exact Or.inl ⟨rfl, rfl⟩
  · exact Or.inr (Or.inl ⟨rfl, h2.1, by simpa using h2.2⟩)
  · exact Or.inr (Or.inr ⟨rfl, h2⟩)

/-! ## Claims -/

/-- **C9.** `add_player` fails — returning the failure value, with the game
unchanged — exactly when the requested color is already used by a joined
player, or 4 players have already joined, or the game is not `WAITING`; on
success the new player is appended and owns exactly 4 pieces, each with
position −1 and status `HOME`. -/
theorem addPlayer_spec (g : GameState) (pid uid nm : String) (color : PlayerColor)
    (isAi : Bool) :
    (addPlayer g pid uid nm color isAi = none ↔
      (∃ pl ∈ g.players, pl.color = color) ∨ 4 ≤ g.players.length ∨ g.status ≠ .waiting) ∧
    (∀ g', addPlayer g pid uid nm color isAi = some g' →
      ∃ newPlayer, g'.players = g.players ++ [newPlayer] ∧ newPlayer.id = pid ∧
        newPlayer.pieces.length = 4 ∧
        ∀ p ∈ newPlayer.pieces, p.position = -1 ∧ p.status = .home) := by
  unfold addPlayer
  refine ⟨?_, ?_⟩
  · split_ifs with h1 h2 h3 <;>
      simp_all [List.any_eq_true, not_or]
  · intro g' hg'
    split_ifs at hg' with h1 h2 h3 <;> cases hg'
    refine ⟨_, rfl, rfl, ?_, ?_⟩
    · simp [defaultPieces]
    · intro p hp
      simp only [defaultPieces, List.mem_map, List.mem_range] at hp
      obtain ⟨i, _, rfl⟩ := hp
      exact ⟨rfl, rfl⟩

/-- Witness for `addPlayer_spec` at the concrete fixture `waitingGame`. -/
theorem addPlayer_spec_witness :
    ∃ newPlayer, waitingGameA.players = waitingGame.players ++ [newPlayer] ∧
      newPlayer.id = "A" ∧ newPlayer.pieces.length = 4 ∧
      ∀ p ∈ newPlayer.pieces, p.position = -1 ∧ p.status = .home :=
  (addPlayer_spec waitingGame "A" "uA" "PA" .red false).2 waitingGameA rfl

/-- **C2.** In a successful `roll_dice`: when the two dice agree, every piece
of the roller with status `HOME` is moved to the color's start cell
(position = start cell, status = `BOARD`, id appended to the start cell's
bucket), and one `EXIT_HOME` record with dice value 0 is appended to the
history per released piece; when the dice differ, no piece changes at all. -/
theorem rollDice_pair_spec (g g' : GameState) (playerId : String) (dice1 dice2 : Int)
    (res : DiceResult) (player : Player)
    (hfind : findPlayer g playerId = some player)
    (hroll : rollDice g playerId dice1 dice2 = some (g', res)) :
    (dice1 = dice2 →
      ∃ player', findPlayer g' playerId = some player' ∧
        player'.pieces = player.pieces.map (releasePiece (startingPosition player.color)) ∧
        (∀ p ∈ player.pieces, p.status = .home →
          (⟨p.id, p.color, startingPosition player.color, .board⟩ : Piece) ∈ player'.pieces) ∧
        g'.board (startingPosition player.color) =
          g.board (startingPosition player.color) ++
            ((player.pieces.filter fun p => decide (p.status = .home)).map Piece.id) ∧
        g'.moves_history = g.moves_history ++
          ((player.pieces.filter fun p => decide (p.status = .home)).map fun p =>
            (⟨player.id, p.id, -1, startingPosition player.color, 0, .exit_home, none⟩ : GameMove))) ∧
    (dice1 ≠ dice2 → g'.players = g.players ∧ g'.board = g.board) := by
  unfold rollDice at hroll
  rw [hfind] at hroll
  dsimp only at hroll
  split_ifs at hroll with h1 h2 h3
  · have hpair : dice1 = dice2 := of_decide_eq_true h3
    rw [autoRelease_eq (rollStore g playerId dice1 dice2
          (player.pieces.all fun p => decide (p.status = .home))) playerId player hfind]
      at hroll
    cases hroll
    refine ⟨fun _ => ?_, fun hne => absurd hpair hne⟩
    refine ⟨releasedPlayer player, ?_, rfl, ?_, ?_, ?_⟩
    · show (mapPlayerFirst _ _ _).find? _ = _
      rw [find?_mapPlayerFirst _ playerId
        (fun pl => { pl with pieces := pl.pieces.map (releasePiece (startingPosition player.color)) })
        (fun _ => rfl)]
      show ((g.players.find? fun pl => pl.id = playerId).map _) = _
      rw [show g.players.find? (fun pl => pl.id = playerId) = some player from hfind]
      rfl
    · intro p hp hphome
      refine List.mem_map.mpr ⟨p, hp, ?_⟩
      simp [releasePiece, hphome]
    · show (fun c => if c = startingPosition player.color then _ else _) _ = _
      simp [rollStore]
    · rfl
  · have hpair : ¬ dice1 = dice2 := fun h => h3 (decide_eq_true h)
    cases hroll
    exact ⟨fun h => absurd h hpair, fun _ => ⟨rfl, rfl⟩⟩

/-- Witness for `rollDice_pair_spec`: rolling 4–4 in `sampleGame` releases
the jailed piece `red_1` to red's start cell 5. -/
theorem rollDice_pair_spec_witness :
    ∃ g' res, rollDice sampleGame "A" 4 4 = some (g', res) ∧
      ∃ player', findPlayer g' "A" = some player' ∧
        (⟨"red_1", .red, 5, .board⟩ : Piece) ∈ player'.pieces := by
  refine ⟨_, _, rfl, ?_⟩
  obtain ⟨p', hp', _, hmem, _, _⟩ :=
    (rollDice_pair_spec sampleGame _ "A" 4 4 _ _ rfl rfl).1 rfl
  exact ⟨p', hp', hmem ⟨"red_1", .red, -1, .home⟩ (by decide) rfl⟩

/-- **C4.** For a piece on the circular track whose `d`-step path (d ∈ 1..6)
crosses its color's goal-lane entry, `get_valid_moves` offers only a
goal-lane move at offset `d − steps_to_entry`, and only when that offset is
between 1 and 8 and no other piece of the owner sits on the target lane
cell; otherwise (in particular on overshoot) the piece simply has no move. -/
theorem goal_lane_entry_spec (g : GameState) (piece : Piece) (pl : Player) (d : Int)
    (hst : piece.status = .board ∨ (piece.status = .safe_zone ∧ piece.position < BOARD_SIZE))
    (hpos : 0 ≤ piece.position ∧ piece.position < BOARD_SIZE)
    (hd : 1 ≤ d ∧ d ≤ 6)
    (hpass : WillPassGoalEntry piece.position d (goalEntryPosition piece.color))
    (hfirst : (g.players.find? fun q => q.pieces.any fun p => p.id = piece.id) = some pl) :
    getPieceValidMoves g piece d =
      (if 1 ≤ d - calculateStepsToPosition piece.position (goalEntryPosition piece.color) ∧
          d - calculateStepsToPosition piece.position (goalEntryPosition piece.color) ≤ 8 ∧
          (∀ p ∈ pl.pieces,
            p.position = BOARD_SIZE +
              (d - calculateStepsToPosition piece.position (goalEntryPosition piece.color)) - 1 →
            p.id = piece.id) then
        [⟨piece.id, piece.position,
          BOARD_SIZE +
            (d - calculateStepsToPosition piece.position (goalEntryPosition piece.color)) - 1,
          .enter_goal⟩]
      else []) := by
  obtain ⟨j, hj, hland⟩ := hpass
  simp only [List.mem_range] at hj
  have hsteps : calculateStepsToPosition piece.position (goalEntryPosition piece.color) =
      (j + 1 : Nat) :=
    calculateSteps_eq _ _ _ hpos (by constructor <;> omega) hland
  have hoff1 : d - calculateStepsToPosition piece.position (goalEntryPosition piece.color) ≤ 8 := by
    rw [hsteps]; omega
  have hpass' : WillPassGoalEntry piece.position d (goalEntryPosition piece.color) :=
    ⟨j, List.mem_range.mpr hj, hland⟩
  have hbranch : getPieceValidMoves g piece d = goalEntryMoves g piece d := by
    rcases hst with h | ⟨h, hlt⟩
    · simp only [getPieceValidMoves, h, if_pos hpass']
    · simp only [getPieceValidMoves, h]
      rw [if_neg (by omega), if_pos hpass']
  rw [hbranch]
  unfold goalEntryMoves
  by_cases hlow : 1 ≤ d - calculateStepsToPosition piece.position (goalEntryPosition piece.color)
  · rw [if_pos ⟨by omega, hoff1⟩]
    have htarget : BOARD_SIZE ≤ BOARD_SIZE +
        (d - calculateStepsToPosition piece.position (goalEntryPosition piece.color)) - 1 ∧
        BOARD_SIZE +
          (d - calculateStepsToPosition piece.position (goalEntryPosition piece.color)) - 1 <
          BOARD_SIZE + GOAL_POSITIONS := by
      unfold BOARD_SIZE GOAL_POSITIONS
      omega
    by_cases hfree : ∀ p ∈ pl.pieces,
        p.position = BOARD_SIZE +
          (d - calculateStepsToPosition piece.position (goalEntryPosition piece.color)) - 1 →
        p.id = piece.id
    · rw [if_pos ⟨htarget.1, htarget.2, pl, by simp [hfirst], hfree⟩,
        if_pos ⟨hlow, hoff1, hfree⟩]
    · rw [if_neg, if_neg]
      · exact fun h => hfree h.2.2
      · rintro ⟨-, -, owner, howner, hfr⟩
        rw [hfirst] at howner
        simp only [Option.mem_def, Option.some.injEq] at howner
        exact hfree (howner ▸ hfr)
  · rw [if_neg (by omega), if_neg (by omega)]

/-- Witness for `goal_lane_entry_spec`: red piece on cell 63 rolling 6
crosses red's entry 0 and is offered exactly the lane cell 68. -/
theorem goal_lane_entry_spec_witness :
    getPieceValidMoves sampleGameC4 (mkPieceT "red_0" .red 63 .board) 6 =
      [⟨"red_0", 63, 68, .enter_goal⟩] := by
  rw [goal_lane_entry_spec sampleGameC4 (mkPieceT "red_0" .red 63 .board)
    (mkPlayerT "A" .red
      [ mkPieceT "red_0" .red 63 .board, mkPieceT "red_1" .red (-1) .home,
        mkPieceT "red_2" .red (-1) .home, mkPieceT "red_3" .red (-1) .home ]) 6
    (Or.inl rfl) (by decide) (by decide) (by decide) (by decide)]
  decide

/-- **C10.** A track piece whose roll lands it exactly on its color's
goal-lane entry cell is offered no move at all: the crossing branch is taken,
the lane offset is 0, and neither a lane move nor a track move is produced. -/
theorem land_on_entry_no_move (g : GameState) (piece : Piece) (d : Int)
    (hst : piece.status = .board ∨ (piece.status = .safe_zone ∧ piece.position < BOARD_SIZE))
    (hpos : 0 ≤ piece.position ∧ piece.position < BOARD_SIZE)
    (hd : 1 ≤ d ∧ d ≤ 6)
    (hland : (piece.position + d) % BOARD_SIZE = goalEntryPosition piece.color) :
    getPieceValidMoves g piece d = [] := by
  have hpass : WillPassGoalEntry piece.position d (goalEntryPosition piece.color) :=
    willPass_of_exact _ _ _ hd hland
  have hsteps : calculateStepsToPosition piece.position (goalEntryPosition piece.color) =
      d.toNat :=
    calculateSteps_eq _ _ _ hpos (by constructor <;> omega) (by rw [show ((d.toNat : Nat) : Int) = d by omega]; exact hland)
  have hbranch : getPieceValidMoves g piece d = goalEntryMoves g piece d := by
    rcases hst with h | ⟨h, hlt⟩
    · simp only [getPieceValidMoves, h, if_pos hpass]
    · simp only [getPieceValidMoves, h]
      rw [if_neg (by omega), if_pos hpass]
  rw [hbranch]
  unfold goalEntryMoves
  rw [if_neg]
  rw [hsteps]
  omega

/-- Witness for `land_on_entry_no_move`: red piece on cell 62 rolling 6 lands
exactly on red's entry 0 and gets no move. -/
theorem land_on_entry_no_move_witness :
    getPieceValidMoves sampleGame (mkPieceT "red_0" .red 62 .board) 6 = [] :=
  land_on_entry_no_move sampleGame (mkPieceT "red_0" .red 62 .board) 6
    (Or.inl rfl) (by decide) (by decide) (by decide)

/-- **C1.** A move onto one of the 12 safe cells is never tagged `CAPTURE`
(and executing it captures nothing); a move onto a non-safe track cell
occupied by exactly one opposing piece is tagged `CAPTURE`, and executing it
jails exactly that opposing piece (position −1, status `HOME`), leaving every
other piece in place. -/
theorem capture_on_safe_and_occupied_spec (g : GameState) :
    (∀ playerId d m, m ∈ getValidMoves g playerId d →
      isSafePosition m.to_position → m.move_type ≠ .capture) ∧
    (∀ playerId player piece d m, findPlayer g playerId = some player →
      piece ∈ player.pieces → m ∈ getPieceValidMoves g piece d →
      0 ≤ m.to_position → m.to_position < BOARD_SIZE → ¬ isSafePosition m.to_position →
      (∃ pl' ∈ g.players, ∃ q ∈ pl'.pieces,
        q.id ∈ g.board m.to_position ∧ q.color ≠ piece.color) →
      m.move_type = .capture) ∧
    (∀ playerId pieceId toPos d ilm g' rec,
      makeMove g playerId pieceId toPos d ilm = some (g', rec) →
      isSafePosition toPos →
      rec.move_type ≠ .capture ∧ rec.captured_piece_id = none ∧
      ∀ q ∈ allPieces g, q.id ≠ pieceId → q ∈ allPieces g') ∧
    (∀ playerId pieceId toPos d ilm g' rec q,
      makeMove g playerId pieceId toPos d ilm = some (g', rec) →
      0 ≤ toPos → toPos < BOARD_SIZE → ¬ isSafePosition toPos →
      g.board toPos = [q.id] →
      (allPieces g).filter (fun p => decide (p.id = q.id)) = [q] →
      (∀ piece ∈ allPieces g, piece.id = pieceId → q.color ≠ piece.color) →
      rec.move_type = .capture ∧ rec.captured_piece_id = some q.id ∧
      (∀ p' ∈ allPieces g', p'.id = q.id → p'.position = -1 ∧ p'.status = .home) ∧
      (∀ p ∈ allPieces g, p.id ≠ q.id → p.id ≠ pieceId → p ∈ allPieces g')) := by
  refine ⟨?_, ?_, ?_, ?_⟩
  · -- (i) offered moves to safe cells are not CAPTURE
    intro playerId d m hm hsafe
    unfold getValidMoves at hm
    rcases hfind : findPlayer g playerId with _ | player <;> rw [hfind] at hm
    · cases hm
    · obtain ⟨piece, -, hmem⟩ := List.mem_flatMap.mp hm
      rcases (mem_getPieceValidMoves g piece d m hmem).2 with ⟨-, ht, -⟩ | ⟨-, ht, -⟩ |
        ⟨-, -, -, ht⟩
      · rw [ht]; simp
      · rw [ht]; simp
      · rw [ht, if_neg (fun hw => hw.1 hsafe)]
        simp
  · -- (ii) offered moves onto singly-opposing-occupied non-safe track cells
    intro playerId player piece d m hfind hpiece hm h0 hlt hnsafe hocc
    rcases (mem_getPieceValidMoves g piece d m hm).2 with ⟨-, -, ht⟩ | ⟨-, -, ht⟩ |
      ⟨-, -, -, ht⟩
    · exact absurd (ht ▸ startingPosition_safe piece.color) hnsafe
    · omega
    · obtain ⟨pl', hpl', q, hq, hqb, hqc⟩ := hocc
      rw [ht, if_pos ⟨hnsafe, ⟨h0, hlt⟩, q.id, hqb, pl', hpl', q, hq, rfl, hqc⟩]
  · -- (iii) executing onto a safe cell captures nothing
    intro playerId pieceId toPos d ilm g' rec hmk hsafe
    obtain ⟨player, piece, hfind, hpc, ⟨m, hm, hmid, hmto⟩, hexec, -⟩ :=
      makeMove_inv g playerId pieceId toPos d ilm g' rec hmk
    have hpid : piece.id = pieceId := by
      have := List.find?_some hpc
      simpa using this
    have hr := resolveCapture_no_capture g piece toPos
      (Or.inr (Or.inr (fun hw => hw.1 hsafe)))
    have hexec' : finishMove (resolveCapture g piece toPos).1 player piece piece.position
        toPos d ilm (resolveCapture g piece toPos).2.1 (resolveCapture g piece toPos).2.2 =
        (g', rec) := hexec
    rw [hr.1, hr.2.1] at hexec'
    have hrec : rec = ⟨player.id, piece.id, piece.position, toPos, d,
        (resolveCapture g piece toPos).2.1, none⟩ := by
      have h2 : (finishMove g player piece piece.position toPos d ilm
          (resolveCapture g piece toPos).2.1 none).2 = rec := congrArg Prod.snd hexec'
      rw [finishMove_record] at h2
      exact h2.symm
    have hg'eq : (finishMove g player piece piece.position toPos d ilm
        (resolveCapture g piece toPos).2.1 none).1 = g' := congrArg Prod.fst hexec'
    refine ⟨?_, ?_, ?_⟩
    · rw [hrec]
      exact hr.2.2
    · rw [hrec]
    · intro qq hqq hne
      rw [← hg'eq]
      exact finishMove_keeps_pieces g player piece piece.position toPos d ilm
        (resolveCapture g piece toPos).2.1 none qq hqq (hpid ▸ hne)
  · -- (iv) executing a singleton capture
    intro playerId pieceId toPos d ilm g' rec q hmk h0 hlt hnsafe hbucket hmatch hcolor
    obtain ⟨player, piece, hfind, hpc, ⟨m, hm, hmid, hmto⟩, hexec, -⟩ :=
      makeMove_inv g playerId pieceId toPos d ilm g' rec hmk
    have hpid : piece.id = pieceId := by
      have := List.find?_some hpc
      simpa using this
    have hplayer : player ∈ g.players := List.mem_of_find?_eq_some hfind
    have hpieceall : piece ∈ allPieces g :=
      mem_allPiecesOf.mpr ⟨player, hplayer, List.mem_of_find?_eq_some hpc⟩
    have hqcol : q.color ≠ piece.color := hcolor piece hpieceall hpid
    have hqall : q ∈ allPieces g := by
      have : q ∈ (allPieces g).filter (fun p => decide (p.id = q.id)) := by
        rw [hmatch]; simp
      exact List.mem_of_mem_filter this
    have hhome : piece.status ≠ .home := by
      rcases (mem_getPieceValidMoves g piece d m hm).2 with ⟨-, -, ht⟩ | ⟨hst, -, -⟩ |
        ⟨hst, -, -, -⟩
      · exact absurd (hmto ▸ ht ▸ startingPosition_safe piece.color) hnsafe
      · rcases hst with h | h <;> simp [h]
      · rcases hst with h | h <;> simp [h]
    have hw : WouldCapture g piece toPos := by
      obtain ⟨pl', hpl', hq⟩ := mem_allPiecesOf.mp hqall
      exact ⟨hnsafe, ⟨h0, hlt⟩, q.id, by rw [hbucket]; simp, pl', hpl', q, hq, rfl, hqcol⟩
    have hr := resolveCapture_capture g piece toPos q hhome hw hbucket hmatch hqcol
    have hexec' : finishMove (resolveCapture g piece toPos).1 player piece piece.position
        toPos d ilm (resolveCapture g piece toPos).2.1 (resolveCapture g piece toPos).2.2 =
        (g', rec) := hexec
    rw [hr] at hexec'
    have hqid : q.id ≠ pieceId := by
      intro hcontra
      have : piece ∈ (allPieces g).filter (fun p => decide (p.id = q.id)) :=
        List.mem_filter.mpr ⟨hpieceall, by simp [hpid, hcontra]⟩
      rw [hmatch] at this
      simp only [List.mem_singleton] at this
      exact hqcol (by rw [this])
    have hrec : rec = ⟨player.id, piece.id, piece.position, toPos, d,
        MoveType.capture, some q.id⟩ := by
      have h2 : (finishMove (capturedState g toPos q.id) player piece piece.position toPos
          d ilm MoveType.capture (some q.id)).2 = rec := congrArg Prod.snd hexec'
      rw [finishMove_record] at h2
      exact h2.symm
    have hg'eq : (finishMove (capturedState g toPos q.id) player piece piece.position toPos
        d ilm MoveType.capture (some q.id)).1 = g' := congrArg Prod.fst hexec'
    refine ⟨?_, ?_, ?_, ?_⟩
    · rw [hrec]
    · rw [hrec]
    · intro p' hp' hp'id
      rw [← hg'eq] at hp'
      rcases of_finishMove_pieces _ player piece piece.position toPos d ilm _ _ p' hp'
        with h | ⟨p, hp, hpid2, hpeq⟩
      · obtain ⟨p, hpmem, rfl⟩ := of_mem_map_jailPlayer g.players q.id p' h
        unfold jailById
        unfold jailById at hp'id
        split_ifs with hcond
        · exact ⟨rfl, rfl⟩
        · rw [if_neg hcond] at hp'id
          exact absurd hp'id hcond
      · exfalso
        rw [hpeq] at hp'id
        exact hqid ((show p.id = q.id from hp'id).symm.trans (hpid2.trans hpid))
    · intro p hp hne1 hne2
      rw [← hg'eq]
      refine finishMove_keeps_pieces _ player piece piece.position toPos d ilm _ _ p
        ?_ (hpid ▸ hne2)
      exact mem_map_jailPlayer_of_ne g.players q.id p hp hne1

/-- Witness for `capture_on_safe_and_occupied_spec`: in `sampleGame`, red
moving from 2 to the non-safe cell 10 (held by `blue_0` alone) is executed as
a capture jailing `blue_0`. -/
theorem capture_on_safe_and_occupied_spec_witness :
    ∃ g' rec, makeMove sampleGame "A" "red_0" 10 8 true = some (g', rec) ∧
      rec.move_type = .capture ∧ rec.captured_piece_id = some "blue_0" ∧
      ∀ p' ∈ allPieces g', p'.id = "blue_0" → p'.position = -1 ∧ p'.status = .home := by
  refine ⟨_, _, rfl, ?_⟩
  obtain ⟨h1, h2, h3, -⟩ := (capture_on_safe_and_occupied_spec sampleGame).2.2.2
    "A" "red_0" 10 8 true _ _ (⟨"blue_0", .blue, 10, .board⟩ : Piece) rfl
    (by decide) (by decide) (by decide) (by decide) (by decide) (by decide)
  exact ⟨h1, h2, h3⟩

/-- **C3 (counterexample to the claim as stated).**  In a three-player game
(join order `A`, `B`, `C`) whose `start_game` drew the shuffle `[A, C, B]`,
mover `A` finishing a non-pair turn hands the turn to `B` — the next key in
join order — not to `C`, the player following `A` in the order picked at
`start_game`. -/
theorem turn_advance_claim_counterexample :
    startGame gC3waiting ["A", "C", "B"] = some gC3started ∧
    List.Perm ["A", "C", "B"] (gC3waiting.players.map Player.id) ∧
    gC3game.is_pair = false ∧
    (∃ g' rec, makeMove gC3game "A" "red_0" 3 1 true = some (g', rec) ∧
      g'.winner_id = none ∧ g'.current_player_id = some "B") ∧
    nextAfter ["A", "C", "B"] "A" = "C" ∧ ("B" : String) ≠ "C" :=
  ⟨rfl, by decide, rfl, ⟨_, _, rfl, rfl, rfl⟩, by decide, by decide⟩

/-- **C3 (amended).** After a successful `make_move` that does not produce a
victory, the turn rotation follows the join order of the players map (fixed
from before the game starts; `start_game`'s random shuffle only selects the
starting player): with `is_last_move = true` and a non-pair stored roll,
`current_player_id` becomes the key following the mover in that order; with
a pair it is unchanged regardless of `is_last_move`. -/
theorem turn_advance_spec (g g' : GameState) (playerId pieceId : String)
    (toPos d : Int) (ilm : Bool) (rec : GameMove)
    (hmk : makeMove g playerId pieceId toPos d ilm = some (g', rec))
    (hw1 : g'.winner_id = none) :
    (ilm = true → g.is_pair = false →
      g'.current_player_id = some (nextAfter (g.players.map Player.id) playerId)) ∧
    (g.is_pair = true → g'.current_player_id = g.current_player_id) := by
  obtain ⟨player, piece, hfind, hpc, -, hexec, hcur⟩ :=
    makeMove_inv g playerId pieceId toPos d ilm g' rec hmk
  have hplid : player.id = playerId := by simpa using List.find?_some hfind
  have hg' : finishTurn (preTurnState (resolveCapture g piece toPos).1 player piece
      piece.position toPos d (resolveCapture g piece toPos).2.1
      (resolveCapture g piece toPos).2.2) player.id ilm = g' := congrArg Prod.fst hexec
  have hr := resolveCapture_scalars g piece toPos
  have hs := preTurnState_scalars (resolveCapture g piece toPos).1 player piece
    piece.position toPos d (resolveCapture g piece toPos).2.1
    (resolveCapture g piece toPos).2.2
  have hcur6 : (preTurnState (resolveCapture g piece toPos).1 player piece
      piece.position toPos d (resolveCapture g piece toPos).2.1
      (resolveCapture g piece toPos).2.2).current_player_id = some playerId := by
    rw [hs.1, hr.1, hcur]
  have hpair6 : (preTurnState (resolveCapture g piece toPos).1 player piece
      piece.position toPos d (resolveCapture g piece toPos).2.1
      (resolveCapture g piece toPos).2.2).is_pair = g.is_pair := by
    rw [hs.2.1, hr.2.1]
  have hids6 : (preTurnState (resolveCapture g piece toPos).1 player piece
      piece.position toPos d (resolveCapture g piece toPos).2.1
      (resolveCapture g piece toPos).2.2).players.map Player.id =
      g.players.map Player.id := by
    rw [hs.2.2.2, hr.2.2.2]
  rcases finishTurn_disj (preTurnState (resolveCapture g piece toPos).1 player piece
      piece.position toPos d (resolveCapture g piece toPos).2.1
      (resolveCapture g piece toPos).2.2) player.id ilm with
    ⟨hwin, -⟩ | ⟨heq, -, hpairf⟩ | ⟨heq, hcond⟩
  · rw [hg'] at hwin
    rw [hw1] at hwin
    cases hwin
  · have hcur' : g'.current_player_id =
        some (nextAfter (g.players.map Player.id) playerId) := by
      rw [← hg', heq]
      show some (nextAfter _ _) = _
      rw [hids6, hcur6]
      rfl
    constructor
    · intro _ _
      exact hcur'
    · intro hp
      rw [hpair6] at hpairf
      rw [hp] at hpairf
      cases hpairf
  · constructor
    · intro hilm hp
      exfalso
      apply hcond
      refine ⟨hilm, ?_⟩
      rw [hpair6, hp]
      simp
    · intro _
      rw [← hg', heq, hcur6, hcur]

/-- Witness for `turn_advance_spec`: in `sampleGame` (players joined in order
`A`, `B`), `A`'s last move of a non-pair turn hands the turn to `B`. -/
theorem turn_advance_spec_witness :
    ∃ g' rec, makeMove sampleGame "A" "red_0" 10 8 true = some (g', rec) ∧
      g'.current_player_id = some (nextAfter (sampleGame.players.map Player.id) "A") ∧
      nextAfter (sampleGame.players.map Player.id) "A" = "B" := by
  refine ⟨_, _, rfl, ?_, by decide⟩
  exact (turn_advance_spec sampleGame _ "A" "red_0" 10 8 true _ rfl rfl).1 rfl rfl

/-- Scalar multiplication pulls out of an indicator-weighted sum. -/
theorem sum_map_ite_mul {α : Type} (l : List α) (P : α → Prop) [DecidablePred P]
    (f : α → ℚ) (c : ℚ) :
    (l.map fun x => if P x then f x * c else 0).sum
      = (l.map fun x => if P x then f x else 0).sum * c := by
  induction l with
  | nil => simp
  | cons a t ih =>
    simp only [List.map_cons, List.sum_cons, ih]
    split_ifs <;> ring

/-- A sum of 0/1 indicators is a `countP`. -/
theorem sum_map_indicator {α : Type} (l : List α) (P : α → Prop) [DecidablePred P] :
    (l.map fun x => if P x then (1 : Nat) else 0).sum
      = l.countP fun x => decide (P x) := by
  induction l with
  | nil => rfl
  | cons a t ih =>
    simp only [List.map_cons, List.sum_cons, List.countP_cons, ih, decide_eq_true_eq]
    split_ifs with h <;> omega

/-- The evaluator's jailed-piece count, per piece. -/
theorem evalHome_eq (player : Player) :
    (player.pieces.map Piece.position).countP (fun pos => decide (pos = -1))
      = jailedCount player := by
  rw [List.countP_map]
  rfl

/-- The evaluator's +50 count, per piece: every piece past the track. -/
theorem evalGoal_eq (player : Player) :
    (player.pieces.map Piece.position).countP (fun pos => decide (pos ≥ BOARD_SIZE))
      = goalAreaCount player := by
  rw [List.countP_map]
  rfl

/-- The evaluator's safe-cell count, per piece. -/
theorem evalSafe_eq (player : Player) :
    (player.pieces.map Piece.position).countP (fun pos => decide (pos ∈ aiSafePositions))
      = safeCellCount player := by
  rw [List.countP_map]
  rfl

/-- The evaluator's progress term is 20 times the per-piece progress sum. -/
theorem evalProgress_eq (player : Player) :
    ((player.pieces.map Piece.position).map fun pos =>
        if 0 < pos ∧ pos < BOARD_SIZE then ((min pos 67 : Int) : ℚ) / 67 * 20 else 0).sum
      = progressSum player * 20 := by
  rw [sum_map_ite_mul, List.map_map]
  rfl

/-- The code's vulnerability counter counts (own piece, attacker) pairs. -/
theorem evalVuln_eq (g : GameState) (playerId : String) (player : Player)
    (hfind : findPlayer g playerId = some player) :
    countVulnerablePieces g playerId = vulnerablePairCount g playerId player := by
  unfold countVulnerablePieces vulnerablePairCount
  rw [hfind]
  dsimp only
  rw [List.map_map]
  refine congrArg List.sum (List.map_congr_left fun p _ => ?_)
  simp only [Function.comp]
  split_ifs with h
  · refine congrArg List.sum (List.map_congr_left fun other _ => ?_)
    split_ifs with h2
    · rw [sum_map_indicator, List.countP_map]
      rfl
    · rfl
  · rfl

/-- The code's capture-opportunity counter counts (own piece, die, opposing
player) triples. -/
theorem evalCap_eq (g : GameState) (playerId : String) (player : Player)
    (hfind : findPlayer g playerId = some player) :
    countCaptureOpportunities g playerId = captureChanceCount g playerId player := by
  unfold countCaptureOpportunities captureChanceCount
  rw [hfind]
  dsimp only
  rw [List.map_map]
  refine congrArg List.sum (List.map_congr_left fun p _ => ?_)
  simp only [Function.comp]
  split_ifs with h
  · refine congrArg List.sum (List.map_congr_left fun k _ => ?_)
    dsimp only
    split_ifs with h2
    · rfl
    · rw [sum_map_indicator]
  · rfl

/-- **C6 (counterexample to the claim as stated).** In a one-player game with
one piece on lane cell 70 (not crowned) and three jailed pieces, the code's
evaluator returns 20 — it scores +50 for ANY piece past the track (position ≥
68), lane pieces included — while the claimed formula (+50 only per crowned
piece) gives −30. -/
theorem evaluator_claim_counterexample :
    evaluatePosition gC6 "A" = 20 ∧ claimEvaluate gC6 "A" = -30 ∧
      evaluatePosition gC6 "A" ≠ claimEvaluate gC6 "A" := by
  have h1 : evaluatePosition gC6 "A" = 20 := by
    simp +decide [evaluatePosition, gC6, pC6A, findPlayer, mkPlayerT, mkPieceT,
      countVulnerablePieces, countCaptureOpportunities, aiSafePositions, BOARD_SIZE]
    norm_num
  have h2 : claimEvaluate gC6 "A" = -30 := by
    simp +decide [claimEvaluate, gC6, pC6A, findPlayer, mkPlayerT, mkPieceT,
      jailedCount, crownedCount, progressSum, safeCellCount, aiSafePositions, BOARD_SIZE]
    norm_num
  refine ⟨h1, h2, ?_⟩
  rw [h1, h2]
  norm_num

/-- **C6 (amended).** For every game state and player id present in it,
`evaluate_position` returns exactly −10 per jailed piece, +50 per piece past
the circular track (position ≥ 68: lane pieces count, not only crowned ones),
+20·Σ min(pos,67)/67 over in-transit track pieces, +5 per piece on a safe
cell, −8 per (own non-safe on-track piece, opposing on-track piece that
reaches it with some die 1–6) PAIR, and +15 per (own on-track piece, die
value 1–6, opposing player) TRIPLE whose non-safe target cell holds a piece
of that opponent — the two penalty quantities are pair/triple counts, not
piece counts. -/
theorem evaluator_spec (g : GameState) (playerId : String) (player : Player)
    (hfind : findPlayer g playerId = some player) :
    evaluatePosition g playerId
      = 0 - jailedCount player * 10 + goalAreaCount player * 50
        + progressSum player * 20 + safeCellCount player * 5
        - vulnerablePairCount g playerId player * 8
        + captureChanceCount g playerId player * 15 := by
  unfold evaluatePosition
  rw [hfind]
  dsimp only
  rw [evalVuln_eq g playerId player hfind, evalCap_eq g playerId player hfind,
    evalHome_eq, evalGoal_eq, evalProgress_eq, evalSafe_eq]

/-- Witness for `evaluator_spec` at the concrete state `gC6`. -/
theorem evaluator_spec_witness :
    findPlayer gC6 "A" = some pC6A ∧
    evaluatePosition gC6 "A"
      = 0 - jailedCount pC6A * 10 + goalAreaCount pC6A * 50
        + progressSum pC6A * 20 + safeCellCount pC6A * 5
        - vulnerablePairCount gC6 "A" pC6A * 8
        + captureChanceCount gC6 "A" pC6A * 15 :=
  ⟨rfl, evaluator_spec gC6 "A" pC6A rfl⟩

/-- **C7 (code bug).** The claim says minimax with depth 0 and no mistake
returns a heuristic-maximal move; in the code, with ANY non-empty move list,
ANY game state and ANY depth, the evaluation loop's very first statement
`self._simulate_move(game_state, move)` executes `new_state = GameState()`,
which raises `TypeError` (the engine's `GameState` dataclass declares `id:
str` with no default), so `choose_move` propagates the exception and never
returns a move. -/
theorem minimax_crash_spec (g : GameState) (m : BotMove) (ms : List BotMove)
    (depth : Nat) :
    minimaxChooseMove g (m :: ms) depth = .error .typeError := rfl

/-- Concrete showing of `minimax_crash_spec` on the two-player fixture. -/
theorem minimax_crash_spec_witness :
    minimaxChooseMove sampleGame
        [⟨"A", "red_0", 0, 2, 7, 5, false⟩] 2 = .error .typeError :=
  minimax_crash_spec sampleGame ⟨"A", "red_0", 0, 2, 7, 5, false⟩ [] 2

/-- **C8 (code bug).** The claim says MCTS with budget 1 and no mistake
attaches one child and returns its move; in the code, with ANY non-empty move
list and ANY positive budget the first iteration raises before any child is
attached: selection calls `MCTSNode.is_terminal`, which reads
`player.is_winner` — an attribute the engine `Player` does not have — so a
state with at least one player raises `AttributeError`; a state with no
players passes that check but then both expansion (`_simulate_move`) and
simulation (`_copy_game_state`) start with `new_state = GameState()`, which
raises `TypeError`.  `choose_move` propagates the exception and never
returns a move. -/
theorem mcts_crash_spec (g : GameState) (m : BotMove) (ms : List BotMove)
    (n : Nat) :
    mctsChooseMove g (m :: ms) (n + 1)
      = .error (if g.players.isEmpty then PyError.typeError
                else PyError.attributeError) := by
  cases hp : g.players with
  | nil =>
    simp only [mctsChooseMove, mctsIteration, mctsIsTerminal, mctsCopyGameState,
      hp, List.isEmpty_nil, if_true]
    rfl
  | cons pl rest =>
    simp only [mctsChooseMove, mctsIteration, mctsIsTerminal, mctsCopyGameState,
      hp, List.isEmpty_cons, if_false]
    rfl

/-- Concrete showing of `mcts_crash_spec` on the two-player fixture. -/
theorem mcts_crash_spec_witness :
    mctsChooseMove sampleGame
        [⟨"A", "red_0", 0, 2, 7, 5, false⟩] 1 = .error .attributeError :=
  mcts_crash_spec sampleGame ⟨"A", "red_0", 0, 2, 7, 5, false⟩ [] 0

/-- Membership in the track-cell list is the track range. -/
theorem mem_trackCells {c : Int} : c ∈ trackCells ↔ 0 ≤ c ∧ c < BOARD_SIZE := by
  unfold trackCells BOARD_SIZE
  rw [List.mem_map]
  constructor
  · rintro ⟨n, hn, rfl⟩
    have h2 := List.mem_range.mp hn
    rw [Int.ofNat_eq_natCast]
    omega
  · intro h
    refine ⟨c.toNat, List.mem_range.mpr (by omega), ?_⟩
    rw [Int.ofNat_eq_natCast]
    omega

/-- `allPiecesOf` over a cons cell. -/
theorem allPiecesOf_cons (pl : Player) (rest : List Player) :
    allPiecesOf (pl :: rest) = pl.pieces ++ allPiecesOf rest := rfl

/-- `pieceIdColors` over a cons cell. -/
theorem pieceIdColors_cons (p : Piece) (ps : List Piece) :
    pieceIdColors (p :: ps) = (p.id, p.color) :: pieceIdColors ps := rfl

/-- An id/color pair is in `idColors` iff some piece carries it. -/
theorem mem_idColors {players : List Player} {x : String} {col : PlayerColor} :
    (x, col) ∈ idColors players ↔
      ∃ p ∈ allPiecesOf players, p.id = x ∧ p.color = col := by
  unfold idColors pieceIdColors
  simp only [List.mem_map, Prod.mk.injEq]

/-- `CellOneColor` transfers across id/color-preserving player updates. -/
theorem cellOneColor_congr {players players' : List Player} {bucket : List String}
    (hic : idColors players' = idColors players)
    (h : CellOneColor players bucket) : CellOneColor players' bucket := by
  intro id1 h1 id2 h2 p1 hp1 p2 hp2 hid1 hid2
  have hm1 : (p1.id, p1.color) ∈ idColors players := by
    rw [← hic]
    exact mem_idColors.mpr ⟨p1, hp1, rfl, rfl⟩
  have hm2 : (p2.id, p2.color) ∈ idColors players := by
    rw [← hic]
    exact mem_idColors.mpr ⟨p2, hp2, rfl, rfl⟩
  obtain ⟨q1, hq1, hq1id, hq1col⟩ := mem_idColors.mp hm1
  obtain ⟨q2, hq2, hq2id, hq2col⟩ := mem_idColors.mp hm2
  rw [← hq1col, ← hq2col]
  exact h id1 h1 id2 h2 q1 hq1 q2 hq2 (hq1id.trans hid1) (hq2id.trans hid2)

/-- `ColorDet` transfers across id/color-preserving player updates. -/
theorem colorDet_congr {players players' : List Player}
    (hic : idColors players' = idColors players)
    (h : ColorDet players) : ColorDet players' := by
  intro p1 hp1 p2 hp2 hid
  have hm1 : (p1.id, p1.color) ∈ idColors players := by
    rw [← hic]
    exact mem_idColors.mpr ⟨p1, hp1, rfl, rfl⟩
  have hm2 : (p2.id, p2.color) ∈ idColors players := by
    rw [← hic]
    exact mem_idColors.mpr ⟨p2, hp2, rfl, rfl⟩
  obtain ⟨q1, hq1, hq1id, hq1col⟩ := mem_idColors.mp hm1
  obtain ⟨q2, hq2, hq2id, hq2col⟩ := mem_idColors.mp hm2
  rw [← hq1col, ← hq2col]
  exact h q1 hq1 q2 hq2 (by rw [hq1id, hq2id, hid])

/-- A smaller bucket keeps the one-color property. -/
theorem cellOneColor_of_subset {players : List Player} {bucket bucket' : List String}
    (hsub : ∀ x ∈ bucket', x ∈ bucket)
    (h : CellOneColor players bucket) : CellOneColor players bucket' :=
  fun id1 h1 id2 h2 => h id1 (hsub _ h1) id2 (hsub _ h2)

/-- A bucket all of whose resolvable ids carry one fixed color is one-color. -/
theorem cellOneColor_of_unicolor {players : List Player} {bucket : List String}
    (col : PlayerColor)
    (h : ∀ x ∈ bucket, ∀ p ∈ allPiecesOf players, p.id = x → p.color = col) :
    CellOneColor players bucket := by
  intro id1 h1 id2 h2 p1 hp1 p2 hp2 hid1 hid2
  rw [h id1 h1 p1 hp1 hid1, h id2 h2 p2 hp2 hid2]

/-- `setPieceFirst` keeps the id/color projection. -/
theorem pieceIdColors_setPieceFirst (ps : List Piece) (pid : String) (pos : Int)
    (st : PieceStatus) :
    pieceIdColors (setPieceFirst ps pid pos st) = pieceIdColors ps := by
  induction ps with
  | nil => rfl
  | cons p rest ih =>
    unfold setPieceFirst
    split_ifs with h
    · rfl
    · rw [pieceIdColors_cons, pieceIdColors_cons, ih]

/-- `jailFirstOpposing` keeps the id/color projection. -/
theorem pieceIdColors_jailFirstOpposing (ps : List Piece) (pid : String)
    (cap : PlayerColor) :
    pieceIdColors (jailFirstOpposing ps pid cap).1 = pieceIdColors ps := by
  induction ps with
  | nil => rfl
  | cons p rest ih =>
    rw [jailFirstOpposing_cons]
    split_ifs with h
    · rfl
    · show pieceIdColors (p :: (jailFirstOpposing rest pid cap).1) = _
      rw [pieceIdColors_cons, pieceIdColors_cons, ih]

/-- Mapping `releasePiece` keeps the id/color projection. -/
theorem pieceIdColors_map_releasePiece (ps : List Piece) (s : Int) :
    pieceIdColors (ps.map (releasePiece s)) = pieceIdColors ps := by
  induction ps with
  | nil => rfl
  | cons p rest ih =>
    rw [List.map_cons, pieceIdColors_cons, pieceIdColors_cons, ih]
    show ((releasePiece s p).id, (releasePiece s p).color) :: _ = _
    unfold releasePiece
    split_ifs <;> rfl

/-- The capture player scan keeps the id/color projection. -/
theorem idColors_captureScanPlayers (players : List Player) (pid : String)
    (cap : PlayerColor) :
    idColors (captureScanPlayers players pid cap).1 = idColors players := by
  induction players with
  | nil => rfl
  | cons pl rest ih =>
    show idColors ({ pl with pieces := (jailFirstOpposing pl.pieces pid cap).1 } ::
        (captureScanPlayers rest pid cap).1) = _
    unfold idColors
    rw [allPiecesOf_cons, allPiecesOf_cons]
    unfold pieceIdColors
    rw [List.map_append, List.map_append]
    show pieceIdColors (jailFirstOpposing pl.pieces pid cap).1 ++
        idColors (captureScanPlayers rest pid cap).1 =
      pieceIdColors pl.pieces ++ idColors rest
    rw [pieceIdColors_jailFirstOpposing, ih]

/-- The whole-bucket capture scan keeps the id/color projection. -/
theorem idColors_captureScanBucket (bucket : List String) (players : List Player)
    (cap : PlayerColor) :
    idColors (captureScanBucket players bucket cap).1 = idColors players := by
  induction bucket generalizing players with
  | nil => rfl
  | cons pid rest ih =>
    show idColors (captureScanBucket (captureScanPlayers players pid cap).1 rest cap).1 = _
    rw [ih, idColors_captureScanPlayers]

/-- `mapPlayerFirst` with a projection-preserving update keeps `idColors`. -/
theorem idColors_mapPlayerFirst (players : List Player) (pid : String)
    (f : Player → Player)
    (hf : ∀ pl, pieceIdColors (f pl).pieces = pieceIdColors pl.pieces) :
    idColors (mapPlayerFirst players pid f) = idColors players := by
  induction players with
  | nil => rfl
  | cons pl rest ih =>
    unfold mapPlayerFirst
    split_ifs with h
    · unfold idColors
      rw [allPiecesOf_cons, allPiecesOf_cons]
      unfold pieceIdColors
      rw [List.map_append, List.map_append]
      show pieceIdColors (f pl).pieces ++ idColors rest =
        pieceIdColors pl.pieces ++ idColors rest
      rw [hf]
    · unfold idColors
      rw [allPiecesOf_cons, allPiecesOf_cons]
      unfold pieceIdColors
      rw [List.map_append, List.map_append]
      show pieceIdColors pl.pieces ++ idColors (mapPlayerFirst rest pid f) =
        pieceIdColors pl.pieces ++ idColors rest
      rw [ih]

/-- `scoreFor` keeps `idColors`. -/
theorem idColors_scoreFor (mt : MoveType) (g : GameState) (pid : String) :
    idColors (scoreFor mt g pid).players = idColors g.players := by
  unfold scoreFor
  split_ifs <;>
    first
      | exact idColors_mapPlayerFirst _ _ _ (fun _ => rfl)
      | rfl

/-- `finishTurn` keeps `idColors`. -/
theorem idColors_finishTurn (g : GameState) (pid : String) (ilm : Bool) :
    idColors (finishTurn g pid ilm).players = idColors g.players := by
  unfold finishTurn
  dsimp only
  split_ifs <;>
    first
      | exact idColors_mapPlayerFirst _ _ _ (fun _ => rfl)
      | rfl

/-- `preTurnState` keeps `idColors`. -/
theorem idColors_preTurnState (g1 : GameState) (player : Player) (piece : Piece)
    (fromPos toPos d : Int) (mt : MoveType) (cid : Option String) :
    idColors (preTurnState g1 player piece fromPos toPos d mt cid).players
      = idColors g1.players := by
  unfold preTurnState
  dsimp only
  rw [idColors_scoreFor]
  dsimp only
  rw [placeOnBoard_players]
  dsimp only
  rw [idColors_mapPlayerFirst _ _ (movePieceIn piece.id toPos)
      (fun pl => pieceIdColors_setPieceFirst _ _ _ _),
    removeFromOldCell_players]

/-- `finishMove` keeps `idColors`. -/
theorem idColors_finishMove (g1 : GameState) (player : Player) (piece : Piece)
    (fromPos toPos d : Int) (ilm : Bool) (mt : MoveType) (cid : Option String) :
    idColors (finishMove g1 player piece fromPos toPos d ilm mt cid).1.players
      = idColors g1.players := by
  unfold finishMove
  dsimp only
  rw [idColors_finishTurn, idColors_preTurnState]

/-- `_capture_piece` keeps `idColors`. -/
theorem idColors_capturePiece (g : GameState) (pos : Int) (cap : PlayerColor) :
    idColors (capturePiece g pos cap).1.players = idColors g.players := by
  unfold capturePiece
  split_ifs
  · exact idColors_captureScanBucket _ _ _
  · rfl

/-- Capture resolution keeps `idColors`. -/
theorem idColors_resolveCapture (g : GameState) (piece : Piece) (toPos : Int) :
    idColors (resolveCapture g piece toPos).1.players = idColors g.players := by
  unfold resolveCapture
  split_ifs
  · rfl
  · rfl
  · exact idColors_capturePiece _ _ _
  · rfl

/-- `finishTurn` does not touch the board. -/
theorem finishTurn_board (g : GameState) (pid : String) (ilm : Bool) :
    (finishTurn g pid ilm).board = g.board := by
  unfold finishTurn
  dsimp only
  split_ifs <;> rfl

/-- `scoreFor` does not touch the board. -/
theorem scoreFor_board (mt : MoveType) (g : GameState) (pid : String) :
    (scoreFor mt g pid).board = g.board := by
  unfold scoreFor
  split_ifs <;> rfl

/-- The board after the `_execute_move` bookkeeping: the old-cell erasure
followed by the new-cell append (player updates do not touch the board). -/
theorem preTurnState_board (g1 : GameState) (player : Player) (piece : Piece)
    (fromPos toPos d : Int) (mt : MoveType) (cid : Option String) :
    (preTurnState g1 player piece fromPos toPos d mt cid).board
      = (placeOnBoard (removeFromOldCell g1 piece.id fromPos) piece.id toPos).board := by
  unfold preTurnState placeOnBoard removeFromOldCell scoreFor
  dsimp only
  split_ifs <;> rfl

/-- The board after the whole `_execute_move` tail. -/
theorem finishMove_board (g1 : GameState) (player : Player) (piece : Piece)
    (fromPos toPos d : Int) (ilm : Bool) (mt : MoveType) (cid : Option String) :
    (finishMove g1 player piece fromPos toPos d ilm mt cid).1.board
      = (placeOnBoard (removeFromOldCell g1 piece.id fromPos) piece.id toPos).board := by
  unfold finishMove
  dsimp only
  rw [finishTurn_board, preTurnState_board]

/-- The old-cell erasure only ever removes bucket entries. -/
theorem of_mem_removeFromOldCell (g1 : GameState) (pid : String) (fromPos : Int)
    (c : Int) (x : String) (hx : x ∈ (removeFromOldCell g1 pid fromPos).board c) :
    x ∈ g1.board c := by
  unfold removeFromOldCell at hx
  split_ifs at hx with h
  · dsimp only at hx
    split_ifs at hx with h2
    · subst h2
      exact List.mem_of_mem_erase hx
    · exact hx
  · exact hx

/-- The new-cell append only ever adds the moved id at the destination. -/
theorem of_mem_placeOnBoard (g3 : GameState) (pid : String) (toPos : Int)
    (c : Int) (x : String) (hx : x ∈ (placeOnBoard g3 pid toPos).board c) :
    x ∈ g3.board c ∨ (c = toPos ∧ x = pid) := by
  unfold placeOnBoard at hx
  split_ifs at hx with h
  · dsimp only at hx
    split_ifs at hx with h2
    · subst h2
      rcases List.mem_append.mp hx with h3 | h3
      · exact Or.inl h3
      · exact Or.inr ⟨rfl, List.mem_singleton.mp h3⟩
    · exact Or.inl hx
  · exact Or.inl hx

/-- `_capture_piece` at the captured cell: the erasure fold. -/
theorem capturePiece_board_at (g : GameState) (pos : Int) (cap : PlayerColor)
    (h : 0 ≤ pos ∧ pos < BOARD_SIZE) :
    (capturePiece g pos cap).1.board pos
      = List.foldl List.erase (g.board pos)
          (captureScanBucket g.players (g.board pos) cap).2.1 := by
  unfold capturePiece
  rw [if_pos h]
  dsimp only
  rw [if_pos rfl]

/-- `_capture_piece` away from the captured cell: untouched. -/
theorem capturePiece_board_ne (g : GameState) (pos : Int) (cap : PlayerColor)
    (c : Int) (hne : c ≠ pos) :
    (capturePiece g pos cap).1.board c = g.board c := by
  unfold capturePiece
  split_ifs with h
  · dsimp only
    rw [if_neg hne]
  · rfl

/-- Occurrence counting through a fold of erasures. -/
theorem count_foldl_erase (L : List String) :
    ∀ (b : List String) (x : String),
      (List.foldl List.erase b L).count x = b.count x - L.count x := by
  induction L with
  | nil =>
    intro b x
    simp
  | cons a t ih =>
    intro b x
    rw [List.foldl_cons, ih, List.count_erase, List.count_cons]
    split_ifs <;> omega

/-- The inner piece loop reports a hit when an opposing piece carries the
id. -/
theorem jailFirstOpposing_hit (ps : List Piece) (pid : String) (cap : PlayerColor)
    (h : ∃ p ∈ ps, p.id = pid ∧ p.color ≠ cap) :
    (jailFirstOpposing ps pid cap).2 = true := by
  induction ps with
  | nil =>
    obtain ⟨p, hp, -⟩ := h
    cases hp
  | cons p rest ih =>
    rw [jailFirstOpposing_cons]
    split_ifs with hc
    · rfl
    · obtain ⟨q, hq, hq2⟩ := h
      rcases List.mem_cons.mp hq with rfl | hmem
      · exact absurd hq2 hc
      · exact ih ⟨q, hmem, hq2⟩

/-- The player scan counts at least one removal when an opposing piece
carries the id. -/
theorem captureScanPlayers_hit (players : List Player) (pid : String)
    (cap : PlayerColor)
    (h : ∃ p ∈ allPiecesOf players, p.id = pid ∧ p.color ≠ cap) :
    1 ≤ (captureScanPlayers players pid cap).2 := by
  induction players with
  | nil =>
    obtain ⟨p, hp, -⟩ := h
    rw [mem_allPiecesOf] at hp
    obtain ⟨pl, hpl, -⟩ := hp
    cases hpl
  | cons pl rest ih =>
    obtain ⟨p, hp, hp2⟩ := h
    have hp' : p ∈ pl.pieces ∨ p ∈ allPiecesOf rest := by
      rw [allPiecesOf_cons] at hp
      exact List.mem_append.mp hp
    show 1 ≤ (if (jailFirstOpposing pl.pieces pid cap).2 then 1 else 0) +
      (captureScanPlayers rest pid cap).2
    rcases hp' with h1 | h2
    · rw [jailFirstOpposing_hit pl.pieces pid cap ⟨p, h1, hp2⟩]
      simp
    · have := ih ⟨p, h2, hp2⟩
      omega

/-- Transport an opposing-piece fact across an `idColors` equality. -/
theorem opposing_congr {players players' : List Player} {x : String}
    {cap : PlayerColor}
    (hic : idColors players' = idColors players)
    (h : ∃ p ∈ allPiecesOf players', p.id = x ∧ p.color ≠ cap) :
    ∃ p ∈ allPiecesOf players, p.id = x ∧ p.color ≠ cap := by
  obtain ⟨p, hp, hid, hcol⟩ := h
  have hm : (x, p.color) ∈ idColors players := by
    rw [← hic]
    exact mem_idColors.mpr ⟨p, hp, hid, rfl⟩
  obtain ⟨q, hq, hqid, hqcol⟩ := mem_idColors.mp hm
  refine ⟨q, hq, hqid, ?_⟩
  rw [hqcol]
  exact hcol

/-- Every bucket occurrence of an id carried by some opposing piece is
matched by at least as many removal-list entries. -/
theorem captureScanBucket_removal_count (bucket : List String)
    (players : List Player) (cap : PlayerColor) (x : String)
    (h : ∃ p ∈ allPiecesOf players, p.id = x ∧ p.color ≠ cap) :
    bucket.count x ≤ ((captureScanBucket players bucket cap).2.1).count x := by
  induction bucket generalizing players with
  | nil => simp
  | cons pid rest ih =>
    have hnext : ∃ p ∈ allPiecesOf (captureScanPlayers players pid cap).1,
        p.id = x ∧ p.color ≠ cap :=
      opposing_congr (idColors_captureScanPlayers players pid cap).symm h
    have hrest := ih (captureScanPlayers players pid cap).1 hnext
    show (pid :: rest).count x ≤
      (List.replicate (captureScanPlayers players pid cap).2 pid ++
        (captureScanBucket (captureScanPlayers players pid cap).1 rest cap).2.1).count x
    rw [List.count_append, List.count_cons, List.count_replicate]
    by_cases hpx : pid = x
    · subst hpx
      have h1 : 1 ≤ (captureScanPlayers players pid cap).2 :=
        captureScanPlayers_hit players pid cap h
      simp only [beq_self_eq_true, if_true]
      omega
    · have hb : (pid == x) = false := by
        rw [beq_eq_false_iff_ne]
        exact hpx
      rw [hb]
      simp only [Bool.false_eq_true, if_false]
      omega

/-- After the capture scan, every id left in the destination bucket resolves
only to pieces of the capturing color. -/
theorem scanned_bucket_unicolor (players : List Player) (bucket : List String)
    (cap : PlayerColor) (x : String)
    (hx : x ∈ List.foldl List.erase bucket (captureScanBucket players bucket cap).2.1) :
    ∀ p ∈ allPiecesOf players, p.id = x → p.color = cap := by
  intro p hp hid
  by_contra hne
  have hcnt := captureScanBucket_removal_count bucket players cap x ⟨p, hp, hid, hne⟩
  have hfold := count_foldl_erase ((captureScanBucket players bucket cap).2.1) bucket x
  have hpos : 0 <
      (List.foldl List.erase bucket (captureScanBucket players bucket cap).2.1).count x :=
    List.count_pos_iff.mpr hx
  omega

/-- The four classification branches of `resolveCapture`, with the state
each one hands to the bookkeeping. -/
theorem resolveCapture_state_cases (g : GameState) (piece : Piece) (toPos : Int) :
    (piece.status = .home ∧ (resolveCapture g piece toPos).1 = g) ∨
    (BOARD_SIZE ≤ toPos ∧ (resolveCapture g piece toPos).1 = g) ∨
    (WouldCapture g piece toPos ∧
      (resolveCapture g piece toPos).1 = (capturePiece g toPos piece.color).1) ∨
    (¬ WouldCapture g piece toPos ∧ (resolveCapture g piece toPos).1 = g) := by
  unfold resolveCapture
  split_ifs with h1 h2 h3
  · exact Or.inl ⟨h1, rfl⟩
  · exact Or.inr (Or.inl ⟨h2, rfl⟩)
  · exact Or.inr (Or.inr (Or.inl ⟨h3, rfl⟩))
  · exact Or.inr (Or.inr (Or.inr ⟨h3, rfl⟩))

/-- Core preservation: one executed move keeps ids-determine-colors and the
one-color property of every non-safe track cell. -/
theorem executeMove_one_color (g : GameState) (player : Player) (piece : Piece)
    (toPos d : Int) (ilm : Bool)
    (hdet : ColorDet g.players) (hinv : NonSafeOneColor g)
    (hpiece : piece ∈ allPiecesOf g.players)
    (hhome : piece.status = .home → toPos = startingPosition piece.color) :
    ColorDet (executeMove g player piece toPos d ilm).1.players ∧
      NonSafeOneColor (executeMove g player piece toPos d ilm).1 := by
  have hic : idColors (executeMove g player piece toPos d ilm).1.players
      = idColors g.players := by
    show idColors (finishMove (resolveCapture g piece toPos).1 player piece
      piece.position toPos d ilm (resolveCapture g piece toPos).2.1
      (resolveCapture g piece toPos).2.2).1.players = _
    rw [idColors_finishMove, idColors_resolveCapture]
  have hboard : (executeMove g player piece toPos d ilm).1.board
      = (placeOnBoard (removeFromOldCell (resolveCapture g piece toPos).1
          piece.id piece.position) piece.id toPos).board := by
    show (finishMove (resolveCapture g piece toPos).1 player piece
      piece.position toPos d ilm (resolveCapture g piece toPos).2.1
      (resolveCapture g piece toPos).2.2).1.board = _
    rw [finishMove_board]
  refine ⟨colorDet_congr hic hdet, ?_⟩
  intro c hc hsafe
  apply cellOneColor_congr hic
  rw [hboard]
  rcases resolveCapture_state_cases g piece toPos with
    ⟨hst, hr⟩ | ⟨hge, hr⟩ | ⟨hw, hr⟩ | ⟨hnw, hr⟩
  · -- EXIT_HOME: the destination is the (safe) start cell
    rw [hr]
    have hts : isSafePosition toPos := by
      rw [hhome hst]
      exact startingPosition_safe piece.color
    have hcne : c ≠ toPos := fun hceq => hsafe (hceq ▸ hts)
    apply cellOneColor_of_subset ?_ (hinv c hc hsafe)
    intro x hx
    rcases of_mem_placeOnBoard _ _ _ _ _ hx with h1 | ⟨h2, -⟩
    · exact of_mem_removeFromOldCell _ _ _ _ _ h1
    · exact absurd h2 hcne
  · -- ENTER_GOAL: the destination is off the track
    rw [hr]
    have hcne : c ≠ toPos := by
      have := mem_trackCells.mp hc
      omega
    apply cellOneColor_of_subset ?_ (hinv c hc hsafe)
    intro x hx
    rcases of_mem_placeOnBoard _ _ _ _ _ hx with h1 | ⟨h2, -⟩
    · exact of_mem_removeFromOldCell _ _ _ _ _ h1
    · exact absurd h2 hcne
  · -- CAPTURE: the destination bucket was scrubbed of opposing ids
    rw [hr]
    by_cases hceq : c = toPos
    · subst hceq
      apply cellOneColor_of_unicolor piece.color
      intro x hx p hp hid
      rcases of_mem_placeOnBoard _ _ _ _ _ hx with h1 | ⟨-, h2⟩
      · have hx2 : x ∈ (capturePiece g c piece.color).1.board c :=
          of_mem_removeFromOldCell _ _ _ _ _ h1
        rw [capturePiece_board_at g c piece.color hw.2.1] at hx2
        exact scanned_bucket_unicolor g.players (g.board c) piece.color x hx2 p hp hid
      · subst h2
        exact hdet p hp piece hpiece hid
    · apply cellOneColor_of_subset ?_ (hinv c hc hsafe)
      intro x hx
      rcases of_mem_placeOnBoard _ _ _ _ _ hx with h1 | ⟨h2, -⟩
      · have h3 := of_mem_removeFromOldCell _ _ _ _ _ h1
        rwa [capturePiece_board_ne g toPos piece.color c hceq] at h3
      · exact absurd h2 hceq
  · -- NORMAL_MOVE: no opposing id sat on the destination
    rw [hr]
    by_cases hceq : c = toPos
    · subst hceq
      apply cellOneColor_of_unicolor piece.color
      intro x hx p hp hid
      rcases of_mem_placeOnBoard _ _ _ _ _ hx with h1 | ⟨-, h2⟩
      · have hxg : x ∈ g.board c := of_mem_removeFromOldCell _ _ _ _ _ h1
        by_contra hne
        apply hnw
        obtain ⟨pl, hpl, hpp⟩ := mem_allPiecesOf.mp hp
        exact ⟨hsafe, mem_trackCells.mp hc, x, hxg, pl, hpl, p, hpp, hid, hne⟩
      · subst h2
        exact hdet p hp piece hpiece hid
    · apply cellOneColor_of_subset ?_ (hinv c hc hsafe)
      intro x hx
      rcases of_mem_placeOnBoard _ _ _ _ _ hx with h1 | ⟨h2, -⟩
      · exact of_mem_removeFromOldCell _ _ _ _ _ h1
      · exact absurd h2 hceq

/-- **C5 (counterexample to the claim as stated).** In the game `gC5` every
track cell holds at most one color; red's fully legal 2-step move from cell
10 onto the SAFE cell 12, already occupied by the blue piece `blue_0`, is a
NORMAL_MOVE that leaves both colors stacked in cell 12's bucket — lastingly,
not transiently inside a capture — so the all-track-cells invariant is false
after a mutating operation. -/
theorem one_color_claim_counterexample :
    AllTrackOneColor gC5 ∧
    ∃ g' rec, makeMove gC5 "A" "red_0" 12 2 true = some (g', rec) ∧
      rec.move_type = MoveType.normal_move ∧
      g'.board 12 = ["blue_0", "red_0"] ∧
      ¬ AllTrackOneColor g' := by
  refine ⟨by decide, _, _, rfl, by decide, by decide, by decide⟩

/-- **C5 (amended).** For every game state whose piece ids determine colors
and whose NON-SAFE track cells each hold pieces of at most one color, every
mutating operation of the rules engine — `roll_dice` (including the pair
auto-release), `make_move` (including capture resolution) and `pass_turn` —
preserves both properties.  Safe track cells are excluded: the engine lets a
move land on a safe cell occupied by an opposing piece without capturing, so
only non-safe cells stay single-color. -/
theorem one_color_spec (g : GameState)
    (hdet : ColorDet g.players) (hinv : NonSafeOneColor g) :
    (∀ playerId dice1 dice2 g' res,
        rollDice g playerId dice1 dice2 = some (g', res) →
          ColorDet g'.players ∧ NonSafeOneColor g') ∧
    (∀ playerId pieceId toPosition diceValue isLastMove g' rec,
        makeMove g playerId pieceId toPosition diceValue isLastMove
            = some (g', rec) →
          ColorDet g'.players ∧ NonSafeOneColor g') ∧
    (∀ playerId g', passTurn g playerId = some g' →
          ColorDet g'.players ∧ NonSafeOneColor g') := by
  refine ⟨?_, ?_, ?_⟩
  · -- roll_dice
    intro playerId dice1 dice2 g' res h
    unfold rollDice at h
    split_ifs at h with h1 h2
    rcases hfind : findPlayer g playerId with _ | player
    · rw [hfind] at h
      cases h
    · rw [hfind] at h
      dsimp only at h
      split_ifs at h with h3
      · -- pair: auto-release to the (safe) start cell
        rw [autoRelease_eq (rollStore g playerId dice1 dice2
              (player.pieces.all fun p => decide (p.status = .home)))
            playerId player hfind] at h
        cases h
        constructor
        · refine colorDet_congr ?_ hdet
          exact idColors_mapPlayerFirst _ _ _
            (fun pl => pieceIdColors_map_releasePiece _ _)
        · intro c hc hcsafe
          have hcne : c ≠ startingPosition player.color :=
            fun hceq => hcsafe (hceq ▸ startingPosition_safe player.color)
          apply cellOneColor_congr
            (idColors_mapPlayerFirst _ _ _
              (fun pl => pieceIdColors_map_releasePiece _ _))
          show CellOneColor g.players
            (if c = startingPosition player.color then _ else _)
          rw [if_neg hcne]
          exact hinv c hc hcsafe
      · -- not a pair: neither board nor players move
        cases h
        exact ⟨hdet, hinv⟩
  · -- make_move
    intro playerId pieceId toPosition diceValue isLastMove g' rec h
    obtain ⟨player, piece, hfind, hpc, ⟨m, hm, hmid, hmto⟩, hexec, -⟩ :=
      makeMove_inv g playerId pieceId toPosition diceValue isLastMove g' rec h
    have hplayer : player ∈ g.players := List.mem_of_find?_eq_some hfind
    have hpmem : piece ∈ player.pieces := List.mem_of_find?_eq_some hpc
    have hpall : piece ∈ allPiecesOf g.players :=
      mem_allPiecesOf.mpr ⟨player, hplayer, hpmem⟩
    have hhome : piece.status = .home → toPosition = startingPosition piece.color := by
      intro hst
      obtain ⟨-, hbr⟩ := mem_getPieceValidMoves g piece diceValue m hm
      rcases hbr with ⟨-, -, hto⟩ | ⟨hst2, -, -⟩ | ⟨hst2, -, -, -⟩
      · rw [← hmto, hto]
      · rcases hst2 with hst2 | hst2 <;> rw [hst] at hst2 <;> cases hst2
      · rcases hst2 with hst2 | hst2 <;> rw [hst] at hst2 <;> cases hst2
    have := executeMove_one_color g player piece toPosition diceValue isLastMove
      hdet hinv hpall hhome
    rwa [show (executeMove g player piece toPosition diceValue isLastMove).1 = g' from
      congrArg Prod.fst hexec] at this
  · -- pass_turn
    intro playerId g' h
    unfold passTurn at h
    split_ifs at h with h1 h2
    cases h
    exact ⟨hdet, hinv⟩

/-- Witness for `one_color_spec` at `sampleGame` (which satisfies both
hypotheses), with the mutating operations evaluated there. -/
theorem one_color_spec_witness :
    ColorDet sampleGame.players ∧ NonSafeOneColor sampleGame ∧
    ((∀ playerId dice1 dice2 g' res,
        rollDice sampleGame playerId dice1 dice2 = some (g', res) →
          ColorDet g'.players ∧ NonSafeOneColor g') ∧
     (∀ playerId pieceId toPosition diceValue isLastMove g' rec,
        makeMove sampleGame playerId pieceId toPosition diceValue isLastMove
            = some (g', rec) →
          ColorDet g'.players ∧ NonSafeOneColor g') ∧
     (∀ playerId g', passTurn sampleGame playerId = some g' →
          ColorDet g'.players ∧ NonSafeOneColor g')) :=
  ⟨by decide, by decide, one_color_spec sampleGame (by decide) (by decide)⟩

end Parques
